import Mathlib

/-!
Verification of the RegnumNostalgia map-tile assemblers
(`src/MapGenerator/assemble-original-map.py`, 18x18 column-major, and
`src/MapGenerator/assemble-v1-map.py`, 3x3 row-major with a 2x upscale).

The Python scripts are embedded shallowly:

* A decoded raster (`PIL.Image`) is an `Img`: a width, a height and a total
  pixel function `Nat → Nat → Nat` (the colour value at (x, y); only the
  values at coordinates inside width x height are meaningful).  `black = 0`.
* `Image.new`, `Image.paste` and `Image.resize` are modelled below.  The
  exact Lanczos filter numerics of PIL live outside this repository; `resize`
  is modelled as a deterministic resample whose output has exactly the
  requested dimensions (the claims under verification concern dimensions,
  control flow and data dependence, never the filter's pixel arithmetic).
* The tile directory is a finite association list `FS` from filenames to
  file contents.  A file either decodes to an `Img` or is `corrupt`
  (present but undecodable, the case where `PIL.Image.open` raises).
* Filenames are structured (`FName.jpg n` for the f-string `f"{tile_num}.jpg"`
  of the original variant, `FName.rc row col` for `f"{row}-{col}.png"` of the
  v1 variant); the real string formatting is injective on these shapes, so
  distinct identifiers are distinct filenames.
* Each run records its observable actions (existence checks, file opens,
  pastes) in an event list, and an uncaught Python exception is `Except.error`.
-/

/-- A decoded raster image: dimensions plus a total pixel function. -/
structure Img where
  width : Nat
  height : Nat
  pix : Nat → Nat → Nat

/-- The background / placeholder colour used by both scripts. -/
def black : Nat := 0

/-- `PIL.Image.new('RGB', (w, h), color)`: a constant image. -/
def Image_new (w h c : Nat) : Img :=
  { width := w, height := h, pix := fun _ _ => c }

/-- `img.size` in PIL: the (width, height) pair. -/
def Img.size (t : Img) : Nat × Nat := (t.width, t.height)

/-- `canvas.paste(tile, (x0, y0))`: opaque overwrite of the tile-sized
region anchored at (x0, y0); every other pixel keeps its value. -/
def Img.paste (canvas tile : Img) (x0 y0 : Nat) : Img :=
  { canvas with
    pix := fun x y =>
      if x0 ≤ x ∧ x < x0 + tile.width ∧ y0 ≤ y ∧ y < y0 + tile.height then
        tile.pix (x - x0) (y - y0)
      else canvas.pix x y }

/-- `img.resize((w, h), Image.LANCZOS)`: a deterministic resample to exactly
(w, h).  The Lanczos kernel itself is a PIL implementation detail; what
matters for the specification is that the result has the requested size and
depends only on the input image. -/
def Img.resize (t : Img) (w h : Nat) : Img :=
  { width := w, height := h,
    pix := fun x y => t.pix (x * t.width / w) (y * t.height / h) }

/-- A filename in the tile directory. `jpg n` stands for the string
`f"{n}.jpg"` (original variant), `rc r c` for `f"{r}-{c}.png"` (v1 variant);
the underlying string formatting is injective on these shapes. -/
inductive FName where
  | jpg (n : Nat)
  | rc (row col : Nat)
deriving DecidableEq

/-- Contents of one file of the tile directory: either it decodes to an
image, or `PIL.Image.open` raises on it. -/
inductive TileFile where
  | decodable (t : Img)
  | corrupt

/-- The tile directory: a finite map from filenames to file contents. -/
def FS : Type := List (FName × TileFile)

/-- Look a filename up in the tile directory (first match wins). -/
def FS.find : FS → FName → Option TileFile
  | [], _ => none
  | p :: rest, n => if p.1 = n then some p.2 else FS.find rest n

/-- Does the directory hold a corrupt (undecodable) file under this name? -/
def isCorruptAt (fs : FS) (n : FName) : Bool :=
  match fs.find n with
  | some TileFile.corrupt => true
  | _ => false

/-- An observable action of an assembly run: an `os.path.exists` check, an
`Image.open`, or an `Image.paste` of a tile at an offset. -/
inductive Ev where
  | existsCheck (name : FName)
  | openFile (name : FName)
  | paste (x y : Nat) (tile : Img)

/-- Is this event a paste? -/
def Ev.isPaste : Ev → Bool
  | .paste _ _ _ => true
  | _ => false

/-- Does this event touch (existence-check or open) the given file? -/
def Ev.readsFile (n : FName) : Ev → Bool
  | .existsCheck m => m = n
  | .openFile m => m = n
  | .paste _ _ _ => false

/-- Outcome of a whole `__main__` run: the directory check failed, an
uncaught exception escaped, or the script ran to completion with final
state `st`. -/
inductive RunResult (σ : Type) where
  | fatalNoDir
  | crashed (e : FName)
  | success (st : σ)

/-- Process exit code of a run (`sys.exit(1)`, uncaught exception, normal). -/
def RunResult.exitCode : RunResult σ → Nat
  | .fatalNoDir => 1
  | .crashed _ => 1
  | .success _ => 0

namespace Orig

/-! ## `assemble-original-map.py`: 18x18 column-major assembler -/

/-- The module-level configuration constants of `assemble-original-map.py`. -/
structure Config where
  TILE_SIZE : Nat
  GRID_SIZE : Nat
  START_TILE : Nat
  MISSING_TILES : List Nat

/-- The concrete constants of the script. -/
def config : Config :=
  { TILE_SIZE := 1024, GRID_SIZE := 18, START_TILE := 75879,
    MISSING_TILES := [76009, 76027] }

/-- `OUTPUT_SIZE = TILE_SIZE * GRID_SIZE`. -/
def Config.OUTPUT_SIZE (cfg : Config) : Nat := cfg.TILE_SIZE * cfg.GRID_SIZE

/-- `f"{tile_num}.jpg"`. -/
def fname (n : Nat) : FName := FName.jpg n

/-- `create_blank_tile()`: a black placeholder tile. -/
def create_blank_tile (cfg : Config) : Img :=
  Image_new cfg.TILE_SIZE cfg.TILE_SIZE black

/-- The loop state of `assemble_map`: the canvas, the sequential tile
counter and the two report counters, plus the recorded event trace. -/
structure St where
  output_image : Img
  tile_num : Nat
  tiles_processed : Nat
  tiles_missing : Nat
  events : List Ev

/-- One iteration of the double loop of `assemble_map` at grid cell
`(col, row)`: resolve the tile (known-missing / present / absent), paste it
at `(col*TILE_SIZE, row*TILE_SIZE)`, bump the counters and `tile_num`.
A corrupt file makes `Image.open` raise: the exception is `Except.error`. -/
def step (cfg : Config) (fs : FS) (st : St) (cell : Nat × Nat) :
    Except FName St :=
  let col := cell.1
  let row := cell.2
  let tile_filename := fname st.tile_num
  let x_offset := col * cfg.TILE_SIZE
  let y_offset := row * cfg.TILE_SIZE
  if cfg.MISSING_TILES.contains st.tile_num then
    let tile := create_blank_tile cfg
    .ok { output_image := st.output_image.paste tile x_offset y_offset,
          tile_num := st.tile_num + 1,
          tiles_processed := st.tiles_processed,
          tiles_missing := st.tiles_missing + 1,
          events := st.events ++ [Ev.paste x_offset y_offset tile] }
  else
    match fs.find tile_filename with
    | some (TileFile.decodable t) =>
        let tile :=
          if t.size ≠ (cfg.TILE_SIZE, cfg.TILE_SIZE) then
            t.resize cfg.TILE_SIZE cfg.TILE_SIZE
          else t
        .ok { output_image := st.output_image.paste tile x_offset y_offset,
              tile_num := st.tile_num + 1,
              tiles_processed := st.tiles_processed + 1,
              tiles_missing := st.tiles_missing,
              events := st.events ++
                [Ev.existsCheck tile_filename, Ev.openFile tile_filename,
                 Ev.paste x_offset y_offset tile] }
    | some TileFile.corrupt => .error tile_filename
    | none =>
        let tile := create_blank_tile cfg
        .ok { output_image := st.output_image.paste tile x_offset y_offset,
              tile_num := st.tile_num + 1,
              tiles_processed := st.tiles_processed,
              tiles_missing := st.tiles_missing + 1,
              events := st.events ++
                [Ev.existsCheck tile_filename,
                 Ev.paste x_offset y_offset tile] }

/-- The cells visited by `for col in range(GRID_SIZE): for row in
range(GRID_SIZE)`, in visit order. -/
def cells (cfg : Config) : List (Nat × Nat) :=
  (List.range cfg.GRID_SIZE).flatMap fun col =>
    (List.range cfg.GRID_SIZE).map fun row => (col, row)

/-- The state on entry to the loop: a black OUTPUT_SIZE x OUTPUT_SIZE
canvas, `tile_num = START_TILE`, zeroed counters. -/
def init (cfg : Config) : St :=
  { output_image := Image_new cfg.OUTPUT_SIZE cfg.OUTPUT_SIZE black,
    tile_num := cfg.START_TILE,
    tiles_processed := 0,
    tiles_missing := 0,
    events := [] }

/-- `assemble_map()`: the double loop over the grid; on completion the
canvas held in the final state is saved to the output file as-is. -/
def assemble_map (cfg : Config) (fs : FS) : Except FName St :=
  (cells cfg).foldlM (step cfg fs) (init cfg)

/-- The `__main__` block: abort if the tile directory is absent, otherwise
run `assemble_map` (an uncaught exception crashes the process). -/
def mainRun (cfg : Config) (dirExists : Bool) (fs : FS) : RunResult St :=
  if ¬ dirExists then .fatalNoDir
  else
    match assemble_map cfg fs with
    | .error e => .crashed e
    | .ok st => .success st

/-- The image persisted by the run, if any (the save happens only when
`assemble_map` runs to completion). -/
def savedOutput : RunResult St → Option Img
  | .success st => some st.output_image
  | _ => none

/-- Pure per-cell resolution: the tile that `step` composites for
identifier `n` (black placeholder for known-missing and absent tiles,
the decoded image — resized on dimension mismatch — otherwise; the
corrupt branch of the match never yields a paste, see `step`). -/
def resolveTile (cfg : Config) (fs : FS) (n : Nat) : Img :=
  if cfg.MISSING_TILES.contains n then create_blank_tile cfg
  else
    match fs.find (fname n) with
    | some (TileFile.decodable t) =>
        if t.size ≠ (cfg.TILE_SIZE, cfg.TILE_SIZE) then
          t.resize cfg.TILE_SIZE cfg.TILE_SIZE
        else t
    | _ => create_blank_tile cfg

/-- Does the iteration for identifier `n` avoid raising?  It raises exactly
when `n` is not in the known-missing list and its file is corrupt. -/
def cellOk (cfg : Config) (fs : FS) (n : Nat) : Bool :=
  cfg.MISSING_TILES.contains n || !isCorruptAt fs (fname n)

/-- The events one non-raising iteration for identifier `n` appends, when
its paste offset is `(x0, y0)`. -/
def cellEvents (cfg : Config) (fs : FS) (n x0 y0 : Nat) : List Ev :=
  if cfg.MISSING_TILES.contains n then
    [Ev.paste x0 y0 (create_blank_tile cfg)]
  else
    match fs.find (fname n) with
    | some (TileFile.decodable _) =>
        [Ev.existsCheck (fname n), Ev.openFile (fname n),
         Ev.paste x0 y0 (resolveTile cfg fs n)]
    | some TileFile.corrupt =>
        [Ev.existsCheck (fname n), Ev.openFile (fname n)]
    | none =>
        [Ev.existsCheck (fname n), Ev.paste x0 y0 (create_blank_tile cfg)]

/-- The events appended by a run over cell list `l` when the counter
starts at `n`. -/
def eventsFor (cfg : Config) (fs : FS) : List (Nat × Nat) → Nat → List Ev
  | [], _ => []
  | p :: rest, n =>
      cellEvents cfg fs n (p.1 * cfg.TILE_SIZE) (p.2 * cfg.TILE_SIZE) ++
        eventsFor cfg fs rest (n + 1)

/-- The sequential identifier the traversal assigns to 0-based cell
`(col, row)`: `START_TILE + col * GRID_SIZE + row`. -/
def cellId (cfg : Config) (col row : Nat) : Nat :=
  cfg.START_TILE + col * cfg.GRID_SIZE + row

/-- The full event trace of a completed run, described cell by cell with
the closed-form identifier `cellId`. -/
def specEvents (cfg : Config) (fs : FS) : List Ev :=
  (cells cfg).flatMap fun p =>
    cellEvents cfg fs (cellId cfg p.1 p.2)
      (p.1 * cfg.TILE_SIZE) (p.2 * cfg.TILE_SIZE)

/-- Pixel `(x, y)` lies in the tileSize x tileSize region that cell
`p = (col, row)` pastes to. -/
def owns (cfg : Config) (p : Nat × Nat) (x y : Nat) : Prop :=
  p.1 * cfg.TILE_SIZE ≤ x ∧ x < p.1 * cfg.TILE_SIZE + cfg.TILE_SIZE ∧
    p.2 * cfg.TILE_SIZE ≤ y ∧ y < p.2 * cfg.TILE_SIZE + cfg.TILE_SIZE

instance ownsDec (cfg : Config) (p : Nat × Nat) (x y : Nat) :
    Decidable (owns cfg p x y) := by
  unfold owns; exact inferInstance

/-- The visit index and cell of the last element of `l` whose paste region
contains `(x, y)` — the paste that determines the final pixel there. -/
def lastOwner (cfg : Config) :
    List (Nat × Nat) → Nat → Nat → Option (Nat × (Nat × Nat))
  | [], _, _ => none
  | p :: rest, x, y =>
      match lastOwner cfg rest x y with
      | some r => some (r.1 + 1, r.2)
      | none => if owns cfg p x y then some (0, p) else none

/-- No expected, non-known-missing tile file of the grid is corrupt: the
condition under which the whole loop runs without raising. -/
def fsOk (cfg : Config) (fs : FS) : Bool :=
  (List.range (cfg.GRID_SIZE * cfg.GRID_SIZE)).all fun j =>
    cellOk cfg fs (cfg.START_TILE + j)

/-- The sequential identifiers the grid expects. -/
def expectedIds (cfg : Config) : List Nat :=
  List.range' cfg.START_TILE (cfg.GRID_SIZE * cfg.GRID_SIZE)

end Orig

namespace V1

/-! ## `assemble-v1-map.py`: 3x3 row-major assembler with 2x upscale -/

/-- The module-level configuration constants of `assemble-v1-map.py`. -/
structure Config where
  TILE_SIZE : Nat
  GRID_ROWS : Nat
  GRID_COLS : Nat
  GAME_SIZE : Nat

/-- The concrete constants of the script. -/
def config : Config :=
  { TILE_SIZE := 1024, GRID_ROWS := 3, GRID_COLS := 3, GAME_SIZE := 6144 }

/-- `ASSEMBLED_SIZE = TILE_SIZE * GRID_COLS`. -/
def Config.ASSEMBLED_SIZE (cfg : Config) : Nat := cfg.TILE_SIZE * cfg.GRID_COLS

/-- `f"{row}-{col}.png"`. -/
def fname (row col : Nat) : FName := FName.rc row col

/-- The loop state of `assemble_map`: canvas, the two counters, and the
recorded event trace. -/
structure St where
  output_image : Img
  tiles_loaded : Nat
  tiles_missing : Nat
  events : List Ev

/-- One iteration of the double loop at grid cell `(row, col)` (1-based):
if the tile file exists, decode it, resize on dimension mismatch and paste
at `((col-1)*TILE_SIZE, (row-1)*TILE_SIZE)`; if it is absent, only the
missing counter moves — nothing is pasted.  A corrupt file makes
`Image.open` raise. -/
def step (cfg : Config) (fs : FS) (st : St) (cell : Nat × Nat) :
    Except FName St :=
  let row := cell.1
  let col := cell.2
  let tile_filename := fname row col
  let x_offset := (col - 1) * cfg.TILE_SIZE
  let y_offset := (row - 1) * cfg.TILE_SIZE
  match fs.find tile_filename with
  | some (TileFile.decodable t) =>
      let tile :=
        if t.size ≠ (cfg.TILE_SIZE, cfg.TILE_SIZE) then
          t.resize cfg.TILE_SIZE cfg.TILE_SIZE
        else t
      .ok { output_image := st.output_image.paste tile x_offset y_offset,
            tiles_loaded := st.tiles_loaded + 1,
            tiles_missing := st.tiles_missing,
            events := st.events ++
              [Ev.existsCheck tile_filename, Ev.openFile tile_filename,
               Ev.paste x_offset y_offset tile] }
  | some TileFile.corrupt => .error tile_filename
  | none =>
      .ok { output_image := st.output_image,
            tiles_loaded := st.tiles_loaded,
            tiles_missing := st.tiles_missing + 1,
            events := st.events ++ [Ev.existsCheck tile_filename] }

/-- The cells visited by `for row in range(1, GRID_ROWS+1): for col in
range(1, GRID_COLS+1)`, in visit order (1-based pairs). -/
def cells (cfg : Config) : List (Nat × Nat) :=
  (List.range' 1 cfg.GRID_ROWS).flatMap fun row =>
    (List.range' 1 cfg.GRID_COLS).map fun col => (row, col)

/-- The state on entry to the loop: a black ASSEMBLED_SIZE x ASSEMBLED_SIZE
canvas and zeroed counters. -/
def init (cfg : Config) : St :=
  { output_image := Image_new cfg.ASSEMBLED_SIZE cfg.ASSEMBLED_SIZE black,
    tiles_loaded := 0,
    tiles_missing := 0,
    events := [] }

/-- The paste loop of `assemble_map()`, before the upscale. -/
def assembleLoop (cfg : Config) (fs : FS) : Except FName St :=
  (cells cfg).foldlM (step cfg fs) (init cfg)

/-- `assemble_map()`: run the loop, then resample the whole canvas once to
`(GAME_SIZE, GAME_SIZE)`; the resulting image is what gets saved. -/
def assemble_map (cfg : Config) (fs : FS) : Except FName St :=
  (assembleLoop cfg fs).map fun st =>
    { st with
      output_image := st.output_image.resize cfg.GAME_SIZE cfg.GAME_SIZE }

/-- The `__main__` block: abort if the tile directory is absent, otherwise
run `assemble_map` (an uncaught exception crashes the process). -/
def mainRun (cfg : Config) (dirExists : Bool) (fs : FS) : RunResult St :=
  if ¬ dirExists then .fatalNoDir
  else
    match assemble_map cfg fs with
    | .error e => .crashed e
    | .ok st => .success st

/-- The image persisted by the run, if any. -/
def savedOutput : RunResult St → Option Img
  | .success st => some st.output_image
  | _ => none

/-- Pure per-cell resolution: the tile pasted for cell `(row, col)` when a
decodable file is present (the fallback value is never pasted — absent
cells paste nothing in this variant). -/
def resolveTile (cfg : Config) (fs : FS) (row col : Nat) : Img :=
  match fs.find (fname row col) with
  | some (TileFile.decodable t) =>
      if t.size ≠ (cfg.TILE_SIZE, cfg.TILE_SIZE) then
        t.resize cfg.TILE_SIZE cfg.TILE_SIZE
      else t
  | _ => Image_new cfg.TILE_SIZE cfg.TILE_SIZE black

/-- Does the iteration for cell `p` paste anything?  Only when a decodable
file is present. -/
def pastes (fs : FS) (p : Nat × Nat) : Bool :=
  match fs.find (fname p.1 p.2) with
  | some (TileFile.decodable _) => true
  | _ => false

/-- Does the iteration for cell `p` avoid raising? -/
def cellOk (fs : FS) (p : Nat × Nat) : Bool :=
  !isCorruptAt fs (fname p.1 p.2)

/-- The events one non-raising iteration for cell `p` appends. -/
def cellEvents (cfg : Config) (fs : FS) (p : Nat × Nat) : List Ev :=
  match fs.find (fname p.1 p.2) with
  | some (TileFile.decodable _) =>
      [Ev.existsCheck (fname p.1 p.2), Ev.openFile (fname p.1 p.2),
       Ev.paste ((p.2 - 1) * cfg.TILE_SIZE) ((p.1 - 1) * cfg.TILE_SIZE)
         (resolveTile cfg fs p.1 p.2)]
  | some TileFile.corrupt =>
      [Ev.existsCheck (fname p.1 p.2), Ev.openFile (fname p.1 p.2)]
  | none => [Ev.existsCheck (fname p.1 p.2)]

/-- The full event trace of a completed loop. -/
def specEvents (cfg : Config) (fs : FS) : List Ev :=
  (cells cfg).flatMap (cellEvents cfg fs)

/-- Pixel `(x, y)` lies in the tileSize x tileSize region of 1-based cell
`p = (row, col)`, anchored at `((col-1)*TILE_SIZE, (row-1)*TILE_SIZE)`. -/
def owns (cfg : Config) (p : Nat × Nat) (x y : Nat) : Prop :=
  (p.2 - 1) * cfg.TILE_SIZE ≤ x ∧
    x < (p.2 - 1) * cfg.TILE_SIZE + cfg.TILE_SIZE ∧
    (p.1 - 1) * cfg.TILE_SIZE ≤ y ∧
    y < (p.1 - 1) * cfg.TILE_SIZE + cfg.TILE_SIZE

instance ownsDec (cfg : Config) (p : Nat × Nat) (x y : Nat) :
    Decidable (owns cfg p x y) := by
  unfold owns; exact inferInstance

/-- The last cell of `l` that pastes a tile covering pixel `(x, y)`, if
any — the paste that determines the final pixel there. -/
def lastPaster (cfg : Config) (fs : FS) :
    List (Nat × Nat) → Nat → Nat → Option (Nat × Nat)
  | [], _, _ => none
  | p :: rest, x, y =>
      match lastPaster cfg fs rest x y with
      | some q => some q
      | none =>
          if pastes fs p ∧ owns cfg p x y then some p else none

/-- No tile file of the grid is corrupt: the condition under which the
whole loop runs without raising. -/
def fsOk (cfg : Config) (fs : FS) : Bool :=
  (cells cfg).all (cellOk fs)

end V1

/-! ## Helper lemmas: original (column-major) variant -/

namespace Orig

/-- Every tile that gets composited is exactly TILE_SIZE wide. -/
theorem resolveTile_width (cfg : Config) (fs : FS) (n : Nat) :
    (resolveTile cfg fs n).width = cfg.TILE_SIZE := by
  unfold resolveTile
  split
  · rfl
  split
  · rename_i t heq
    split
    · rfl
    · rename_i h
      have h2 : t.size = (cfg.TILE_SIZE, cfg.TILE_SIZE) := not_not.mp h
      exact congrArg Prod.fst h2
  · rfl

/-- Every tile that gets composited is exactly TILE_SIZE tall. -/
theorem resolveTile_height (cfg : Config) (fs : FS) (n : Nat) :
    (resolveTile cfg fs n).height = cfg.TILE_SIZE := by
  unfold resolveTile
  split
  · rfl
  split
  · rename_i t heq
    split
    · rfl
    · rename_i h
      have h2 : t.size = (cfg.TILE_SIZE, cfg.TILE_SIZE) := not_not.mp h
      exact congrArg Prod.snd h2
  · rfl

/-- Characterization of one non-raising loop iteration: it pastes the
resolved tile at the cell's offset, bumps the counter and appends the
cell's events. -/
theorem step_ok (cfg : Config) (fs : FS) (st : St) (col row : Nat)
    (h : cellOk cfg fs st.tile_num = true) :
    ∃ st1,
      step cfg fs st (col, row) = .ok st1 ∧
      st1.output_image =
        st.output_image.paste (resolveTile cfg fs st.tile_num)
          (col * cfg.TILE_SIZE) (row * cfg.TILE_SIZE) ∧
      st1.tile_num = st.tile_num + 1 ∧
      st1.events = st.events ++
        cellEvents cfg fs st.tile_num
          (col * cfg.TILE_SIZE) (row * cfg.TILE_SIZE) := by
  by_cases hm : st.tile_num ∈ cfg.MISSING_TILES
  · have hstep : step cfg fs st (col, row) = .ok
        { output_image := st.output_image.paste (create_blank_tile cfg)
            (col * cfg.TILE_SIZE) (row * cfg.TILE_SIZE),
          tile_num := st.tile_num + 1,
          tiles_processed := st.tiles_processed,
          tiles_missing := st.tiles_missing + 1,
          events := st.events ++
            [Ev.paste (col * cfg.TILE_SIZE) (row * cfg.TILE_SIZE)
              (create_blank_tile cfg)] } := by
      simp [step, hm]
    exact ⟨_, hstep, by simp [resolveTile, hm], rfl,
      by simp [cellEvents, hm]⟩
  · cases hf : fs.find (fname st.tile_num) with
    | none =>
      have hstep : step cfg fs st (col, row) = .ok
          { output_image := st.output_image.paste (create_blank_tile cfg)
              (col * cfg.TILE_SIZE) (row * cfg.TILE_SIZE),
            tile_num := st.tile_num + 1,
            tiles_processed := st.tiles_processed,
            tiles_missing := st.tiles_missing + 1,
            events := st.events ++
              [Ev.existsCheck (fname st.tile_num),
               Ev.paste (col * cfg.TILE_SIZE) (row * cfg.TILE_SIZE)
                 (create_blank_tile cfg)] } := by
        simp [step, hm, hf]
      exact ⟨_, hstep, by simp [resolveTile, hm, hf], rfl,
        by simp [cellEvents, hm, hf]⟩
    | some tf =>
      cases tf with
      | corrupt =>
        exfalso
        simp [cellOk, isCorruptAt, hf] at h
        exact hm h
      | decodable t =>
        have hstep : step cfg fs st (col, row) = .ok
            { output_image := st.output_image.paste
                (if t.size = (cfg.TILE_SIZE, cfg.TILE_SIZE) then t
                 else t.resize cfg.TILE_SIZE cfg.TILE_SIZE)
                (col * cfg.TILE_SIZE) (row * cfg.TILE_SIZE),
              tile_num := st.tile_num + 1,
              tiles_processed := st.tiles_processed + 1,
              tiles_missing := st.tiles_missing,
              events := st.events ++
                [Ev.existsCheck (fname st.tile_num),
                 Ev.openFile (fname st.tile_num),
                 Ev.paste (col * cfg.TILE_SIZE) (row * cfg.TILE_SIZE)
                   (if t.size = (cfg.TILE_SIZE, cfg.TILE_SIZE) then t
                    else t.resize cfg.TILE_SIZE cfg.TILE_SIZE)] } := by
          simp [step, hm, hf]
        exact ⟨_, hstep, by simp [resolveTile, hm, hf], rfl,
          by simp [cellEvents, resolveTile, hm, hf]⟩

/-- Master lemma for the paste loop: when no visited identifier raises,
the fold completes, the counter advances once per cell, canvas dimensions
are preserved, the event trace is `eventsFor`, and each pixel holds the
resolved tile of the last visited cell whose region contains it. -/
theorem fold_spec (cfg : Config) (fs : FS) (l : List (Nat × Nat)) :
    ∀ st : St,
      (∀ j, j < l.length → cellOk cfg fs (st.tile_num + j) = true) →
      ∃ st1,
        l.foldlM (step cfg fs) st = .ok st1 ∧
        st1.tile_num = st.tile_num + l.length ∧
        st1.output_image.width = st.output_image.width ∧
        st1.output_image.height = st.output_image.height ∧
        st1.events = st.events ++ eventsFor cfg fs l st.tile_num ∧
        ∀ x y,
          st1.output_image.pix x y =
            match lastOwner cfg l x y with
            | some r =>
                (resolveTile cfg fs (st.tile_num + r.1)).pix
                  (x - r.2.1 * cfg.TILE_SIZE) (y - r.2.2 * cfg.TILE_SIZE)
            | none => st.output_image.pix x y := by
  induction l with
  | nil =>
    intro st _
    exact ⟨st, rfl, by simp, rfl, rfl, by simp [eventsFor],
      fun x y => by simp [lastOwner]⟩
  | cons p rest ih =>
    intro st hok
    obtain ⟨st1, hstep, himg, htn, hev⟩ :=
      step_ok cfg fs st p.1 p.2 (by simpa using hok 0 (by simp))
    have hok1 : ∀ j, j < rest.length → cellOk cfg fs (st1.tile_num + j) = true := by
      intro j hj
      have heq : st1.tile_num + j = st.tile_num + (j + 1) := by omega
      rw [heq]
      exact hok (j + 1) (by simp; omega)
    obtain ⟨st2, hfold, htn2, hw, hh, hev2, hpix⟩ := ih st1 hok1
    refine ⟨st2, ?_, ?_, ?_, ?_, ?_, ?_⟩
    · rw [List.foldlM_cons, hstep]
      exact hfold
    · rw [htn2, htn]; simp; omega
    · rw [hw, himg]; rfl
    · rw [hh, himg]; rfl
    · rw [hev2, hev, htn]
      simp [eventsFor, List.append_assoc]
    · intro x y
      have hp := hpix x y
      cases h1 : lastOwner cfg rest x y with
      | some r =>
        rw [h1] at hp
        have h2 : lastOwner cfg (p :: rest) x y = some (r.1 + 1, r.2) := by
          simp [lastOwner, h1]
        rw [h2, hp, htn]
        have h3 : st.tile_num + 1 + r.1 = st.tile_num + (r.1 + 1) := by omega
        simp [h3]
      | none =>
        rw [h1] at hp
        have h2 : lastOwner cfg (p :: rest) x y =
            if owns cfg p x y then some (0, p) else none := by
          simp [lastOwner, h1]
        rw [h2, hp, himg]
        by_cases ho : owns cfg p x y
        · rw [if_pos ho]
          have hc : p.1 * cfg.TILE_SIZE ≤ x ∧
              x < p.1 * cfg.TILE_SIZE + (resolveTile cfg fs st.tile_num).width ∧
              p.2 * cfg.TILE_SIZE ≤ y ∧
              y < p.2 * cfg.TILE_SIZE + (resolveTile cfg fs st.tile_num).height := by
            rw [resolveTile_width, resolveTile_height]
            exact ho
          simp only [Img.paste, if_pos hc, Nat.add_zero]
        · rw [if_neg ho]
          have hc : ¬(p.1 * cfg.TILE_SIZE ≤ x ∧
              x < p.1 * cfg.TILE_SIZE + (resolveTile cfg fs st.tile_num).width ∧
              p.2 * cfg.TILE_SIZE ≤ y ∧
              y < p.2 * cfg.TILE_SIZE + (resolveTile cfg fs st.tile_num).height) := by
            rw [resolveTile_width, resolveTile_height]
            exact ho
          simp only [Img.paste, if_neg hc]

end Orig

/-- Enumerating an m x n grid with the outer index first equals mapping
`j ↦ (j / n, j % n)` over `range (m * n)`. -/
theorem grid_enum_eq (m n : Nat) :
    (List.range m).flatMap (fun c => (List.range n).map fun r => (c, r)) =
      (List.range (m * n)).map fun j => (j / n, j % n) := by
  induction m with
  | zero => simp
  | succ m ih =>
    rw [List.range_succ, List.flatMap_append, ih, Nat.succ_mul,
      List.range_add, List.map_append, List.map_map]
    congr 1
    rcases Nat.eq_zero_or_pos n with hn | hn
    · subst hn; simp
    · simp only [List.flatMap_cons, List.flatMap_nil, List.append_nil]
      apply List.map_congr_left
      intro r hr
      have hrn : r < n := List.mem_range.mp hr
      have h1 : (m * n + r) / n = m := by
        rw [Nat.mul_comm m n, Nat.mul_add_div hn, Nat.div_eq_of_lt hrn,
          Nat.add_zero]
      have h2 : (m * n + r) % n = r := by
        rw [Nat.mul_comm m n, Nat.mul_add_mod, Nat.mod_eq_of_lt hrn]
      simp [Function.comp, h1, h2]

namespace Orig

/-- The visit order is `j ↦ (j / GRID_SIZE, j % GRID_SIZE)` over
`range (GRID_SIZE^2)`. -/
theorem cells_eq (cfg : Config) :
    cells cfg = (List.range (cfg.GRID_SIZE * cfg.GRID_SIZE)).map
      fun j => (j / cfg.GRID_SIZE, j % cfg.GRID_SIZE) :=
  grid_enum_eq cfg.GRID_SIZE cfg.GRID_SIZE

/-- The traversal visits GRID_SIZE * GRID_SIZE cells. -/
theorem cells_length (cfg : Config) :
    (cells cfg).length = cfg.GRID_SIZE * cfg.GRID_SIZE := by
  rw [cells_eq]; simp

/-- A pixel is in a cell's paste region iff the cell is the pixel's
quotient cell. -/
theorem owns_iff (cfg : Config) (hT : 0 < cfg.TILE_SIZE) (p : Nat × Nat)
    (x y : Nat) :
    owns cfg p x y ↔ p.1 = x / cfg.TILE_SIZE ∧ p.2 = y / cfg.TILE_SIZE := by
  unfold owns
  constructor
  · rintro ⟨h1, h2, h3, h4⟩
    refine ⟨?_, ?_⟩
    · exact (Nat.div_eq_of_lt_le h1 (by rw [Nat.succ_mul]; omega)).symm
    · exact (Nat.div_eq_of_lt_le h3 (by rw [Nat.succ_mul]; omega)).symm
  · rintro ⟨h1, h2⟩
    have hx := Nat.div_add_mod x cfg.TILE_SIZE
    have hy := Nat.div_add_mod y cfg.TILE_SIZE
    have hxm := Nat.mod_lt x hT
    have hym := Nat.mod_lt y hT
    rw [h1, h2]
    refine ⟨?_, ?_, ?_, ?_⟩
    · rw [Nat.mul_comm]; exact Nat.le.intro hx
    · rw [Nat.mul_comm]
      calc x = cfg.TILE_SIZE * (x / cfg.TILE_SIZE) + x % cfg.TILE_SIZE :=
            hx.symm
        _ < cfg.TILE_SIZE * (x / cfg.TILE_SIZE) + cfg.TILE_SIZE :=
            Nat.add_lt_add_left hxm _
    · rw [Nat.mul_comm]; exact Nat.le.intro hy
    · rw [Nat.mul_comm]
      calc y = cfg.TILE_SIZE * (y / cfg.TILE_SIZE) + y % cfg.TILE_SIZE :=
            hy.symm
        _ < cfg.TILE_SIZE * (y / cfg.TILE_SIZE) + cfg.TILE_SIZE :=
            Nat.add_lt_add_left hym _

/-- If no element of `l` owns the pixel, no paste of `l` touches it. -/
theorem lastOwner_none (cfg : Config) (l : List (Nat × Nat)) (x y : Nat)
    (h : ∀ p ∈ l, ¬ owns cfg p x y) : lastOwner cfg l x y = none := by
  induction l with
  | nil => rfl
  | cons p rest ih =>
    have hr := ih fun q hq => h q (List.mem_cons_of_mem p hq)
    simp [lastOwner, hr, h p (List.mem_cons_self p rest)]

/-- If exactly one position of `l` owns the pixel, `lastOwner` returns it. -/
theorem lastOwner_unique (cfg : Config) (l : List (Nat × Nat)) (x y : Nat) :
    ∀ (k : Nat) (hk : k < l.length),
      owns cfg (l.get ⟨k, hk⟩) x y →
      (∀ j (hj : j < l.length), owns cfg (l.get ⟨j, hj⟩) x y → j = k) →
      lastOwner cfg l x y = some (k, l.get ⟨k, hk⟩) := by
  induction l with
  | nil => intro k hk; exact absurd hk (by simp)
  | cons p rest ih =>
    intro k hk howns huniq
    cases k with
    | zero =>
      have hnone : lastOwner cfg rest x y = none := by
        apply lastOwner_none
        intro q hq hoq
        obtain ⟨⟨j, hj⟩, rfl⟩ := List.mem_iff_get.mp hq
        have := huniq (j + 1) (by simpa using Nat.succ_lt_succ hj)
          (by simpa using hoq)
        omega
      simp only [lastOwner, hnone]
      rw [if_pos (by simpa using howns)]
      rfl
    | succ k =>
      have hk2 : k < rest.length := by simpa using hk
      have howns2 : owns cfg (rest.get ⟨k, hk2⟩) x y := by
        simpa [List.get_cons_succ] using howns
      have huniq2 : ∀ j (hj : j < rest.length),
          owns cfg (rest.get ⟨j, hj⟩) x y → j = k := by
        intro j hj ho
        have := huniq (j + 1) (by simpa using Nat.succ_lt_succ hj)
          (by simpa [List.get_cons_succ] using ho)
        omega
      have hr := ih k hk2 howns2 huniq2
      simp [lastOwner, hr, List.get_cons_succ]

/-- The cell visited at index `c * GRID_SIZE + r` is `(c, r)`. -/
theorem cells_get (cfg : Config) (c r : Nat) (hc : c < cfg.GRID_SIZE)
    (hr : r < cfg.GRID_SIZE)
    (h : c * cfg.GRID_SIZE + r < (cells cfg).length) :
    (cells cfg).get ⟨c * cfg.GRID_SIZE + r, h⟩ = (c, r) := by
  have hG : 0 < cfg.GRID_SIZE := Nat.zero_lt_of_lt hr
  have h1 : (c * cfg.GRID_SIZE + r) / cfg.GRID_SIZE = c := by
    rw [Nat.mul_comm c cfg.GRID_SIZE, Nat.mul_add_div hG,
      Nat.div_eq_of_lt hr, Nat.add_zero]
  have h2 : (c * cfg.GRID_SIZE + r) % cfg.GRID_SIZE = r := by
    rw [Nat.mul_comm c cfg.GRID_SIZE, Nat.mul_add_mod, Nat.mod_eq_of_lt hr]
  simp [List.get_eq_getElem, cells_eq, h1, h2]

/-- Any visited cell is `(j / GRID_SIZE, j % GRID_SIZE)` at its index. -/
theorem cells_get_any (cfg : Config) (j : Nat) (hj : j < (cells cfg).length) :
    (cells cfg).get ⟨j, hj⟩ = (j / cfg.GRID_SIZE, j % cfg.GRID_SIZE) := by
  simp [List.get_eq_getElem, cells_eq]

/-- For an in-canvas pixel, the unique cell owning it is its quotient cell,
at visit index `(x / T) * GRID_SIZE + y / T`. -/
theorem lastOwner_cells (cfg : Config) (hT : 0 < cfg.TILE_SIZE) (x y : Nat)
    (hx : x < cfg.GRID_SIZE * cfg.TILE_SIZE)
    (hy : y < cfg.GRID_SIZE * cfg.TILE_SIZE) :
    lastOwner cfg (cells cfg) x y =
      some ((x / cfg.TILE_SIZE) * cfg.GRID_SIZE + y / cfg.TILE_SIZE,
        (x / cfg.TILE_SIZE, y / cfg.TILE_SIZE)) := by
  have hc : x / cfg.TILE_SIZE < cfg.GRID_SIZE :=
    Nat.div_lt_of_lt_mul (by rw [Nat.mul_comm] at hx; exact hx)
  have hr : y / cfg.TILE_SIZE < cfg.GRID_SIZE :=
    Nat.div_lt_of_lt_mul (by rw [Nat.mul_comm] at hy; exact hy)
  have hk : (x / cfg.TILE_SIZE) * cfg.GRID_SIZE + y / cfg.TILE_SIZE <
      (cells cfg).length := by
    rw [cells_length]
    calc (x / cfg.TILE_SIZE) * cfg.GRID_SIZE + y / cfg.TILE_SIZE
        < (x / cfg.TILE_SIZE) * cfg.GRID_SIZE + cfg.GRID_SIZE :=
          Nat.add_lt_add_left hr _
      _ = (x / cfg.TILE_SIZE + 1) * cfg.GRID_SIZE := (Nat.succ_mul _ _).symm
      _ ≤ cfg.GRID_SIZE * cfg.GRID_SIZE := Nat.mul_le_mul_right _ hc
  have h1 : owns cfg ((cells cfg).get
      ⟨(x / cfg.TILE_SIZE) * cfg.GRID_SIZE + y / cfg.TILE_SIZE, hk⟩) x y := by
    rw [cells_get cfg _ _ hc hr hk]
    exact (owns_iff cfg hT _ x y).mpr ⟨rfl, rfl⟩
  have h2 : ∀ j (hj : j < (cells cfg).length),
      owns cfg ((cells cfg).get ⟨j, hj⟩) x y →
      j = (x / cfg.TILE_SIZE) * cfg.GRID_SIZE + y / cfg.TILE_SIZE := by
    intro j hj ho
    rw [cells_get_any cfg j hj, owns_iff cfg hT] at ho
    obtain ⟨e1, e2⟩ := ho
    have hdm := Nat.div_add_mod j cfg.GRID_SIZE
    calc j = cfg.GRID_SIZE * (j / cfg.GRID_SIZE) + j % cfg.GRID_SIZE :=
          hdm.symm
      _ = cfg.GRID_SIZE * (x / cfg.TILE_SIZE) + y / cfg.TILE_SIZE := by
          rw [← e1, ← e2]
      _ = (x / cfg.TILE_SIZE) * cfg.GRID_SIZE + y / cfg.TILE_SIZE := by
          rw [Nat.mul_comm]
  have hmain := lastOwner_unique cfg (cells cfg) x y _ hk h1 h2
  rw [hmain, cells_get cfg _ _ hc hr hk]

/-- The events of a run whose counter starts at the identifier matching
the visit order are described by the closed-form `cellId`. -/
theorem eventsFor_eq (cfg : Config) (fs : FS) (l : List (Nat × Nat)) :
    ∀ n : Nat,
      (∀ j (h : j < l.length),
        cellId cfg (l.get ⟨j, h⟩).1 (l.get ⟨j, h⟩).2 = n + j) →
      eventsFor cfg fs l n =
        l.flatMap fun p =>
          cellEvents cfg fs (cellId cfg p.1 p.2)
            (p.1 * cfg.TILE_SIZE) (p.2 * cfg.TILE_SIZE) := by
  induction l with
  | nil => intro n _; simp [eventsFor]
  | cons p rest ih =>
    intro n hid
    have h0 : cellId cfg p.1 p.2 = n := by
      have := hid 0 (by simp)
      simpa using this
    have hshift : ∀ j (h : j < rest.length),
        cellId cfg (rest.get ⟨j, h⟩).1 (rest.get ⟨j, h⟩).2 = (n + 1) + j := by
      intro j h
      have := hid (j + 1) (by simpa using Nat.succ_lt_succ h)
      rw [List.get_cons_succ] at this
      omega
    simp only [eventsFor, List.flatMap_cons, h0, ih (n + 1) hshift]

/-- A non-raising iteration implies its identifier was safe, and the
counter advanced by one. -/
theorem step_ok_inv (cfg : Config) (fs : FS) (st : St) (p : Nat × Nat)
    (st1 : St) (h : step cfg fs st p = .ok st1) :
    cellOk cfg fs st.tile_num = true ∧ st1.tile_num = st.tile_num + 1 := by
  by_cases hm : st.tile_num ∈ cfg.MISSING_TILES
  · refine ⟨by simp [cellOk, hm], ?_⟩
    simp [step, hm] at h
    rw [← h]
  · cases hf : fs.find (fname st.tile_num) with
    | none =>
      refine ⟨by simp [cellOk, isCorruptAt, hf], ?_⟩
      simp [step, hm, hf] at h
      rw [← h]
    | some tf =>
      cases tf with
      | corrupt => simp [step, hm, hf] at h
      | decodable t =>
        refine ⟨by simp [cellOk, isCorruptAt, hf], ?_⟩
        simp [step, hm, hf] at h
        rw [← h]

/-- An unsafe identifier makes the iteration raise on exactly its file. -/
theorem step_err (cfg : Config) (fs : FS) (st : St) (p : Nat × Nat)
    (h : cellOk cfg fs st.tile_num = false) :
    step cfg fs st p = .error (fname st.tile_num) := by
  have hm : st.tile_num ∉ cfg.MISSING_TILES := by
    intro hmem
    simp [cellOk, hmem] at h
  have hc : isCorruptAt fs (fname st.tile_num) = true := by
    by_cases hcc : isCorruptAt fs (fname st.tile_num) = true
    · exact hcc
    · exfalso
      simp [cellOk, hm, hcc] at h
  unfold isCorruptAt at hc
  cases hf : fs.find (fname st.tile_num) with
  | none => rw [hf] at hc; simp at hc
  | some tf =>
    cases tf with
    | decodable t => rw [hf] at hc; simp at hc
    | corrupt => simp [step, hm, hf]

/-- If a run of the loop completed, every visited identifier was safe. -/
theorem fold_ok_inv (cfg : Config) (fs : FS) (l : List (Nat × Nat)) :
    ∀ st st1, l.foldlM (step cfg fs) st = .ok st1 →
      ∀ j, j < l.length → cellOk cfg fs (st.tile_num + j) = true := by
  induction l with
  | nil => intro st st1 _ j hj; exact absurd hj (by simp)
  | cons p rest ih =>
    intro st st1 h j hj
    rw [List.foldlM_cons] at h
    cases hs : step cfg fs st p with
    | error e => rw [hs] at h; exact Except.noConfusion h
    | ok stm =>
      rw [hs] at h
      have h2 : rest.foldlM (step cfg fs) stm = .ok st1 := h
      obtain ⟨hck, htn⟩ := step_ok_inv cfg fs st p stm hs
      cases j with
      | zero => simpa using hck
      | succ j =>
        have := ih stm st1 h2 j (by simpa using hj)
        rw [htn] at this
        have heq : st.tile_num + 1 + j = st.tile_num + (j + 1) := by omega
        rwa [heq] at this

/-- If some visited identifier is unsafe, the loop raises. -/
theorem fold_err (cfg : Config) (fs : FS) (l : List (Nat × Nat)) :
    ∀ st, (∃ j, j < l.length ∧ cellOk cfg fs (st.tile_num + j) = false) →
      ∃ e, l.foldlM (step cfg fs) st = .error e := by
  induction l with
  | nil =>
    intro st ⟨j, hj, _⟩
    exact absurd hj (by simp)
  | cons p rest ih =>
    intro st ⟨j, hj, hbad⟩
    cases hck : cellOk cfg fs st.tile_num with
    | false =>
      refine ⟨fname st.tile_num, ?_⟩
      rw [List.foldlM_cons, step_err cfg fs st p hck]
      rfl
    | true =>
      obtain ⟨st1, hstep, _, htn, _⟩ := step_ok cfg fs st p.1 p.2 hck
      cases j with
      | zero =>
        rw [Nat.add_zero, hck] at hbad
        exact absurd hbad (by simp)
      | succ j =>
        obtain ⟨e, he⟩ := ih st1 ⟨j, by simpa using hj, by
          rw [htn]
          have heq : st.tile_num + 1 + j = st.tile_num + (j + 1) := by omega
          rw [heq]
          exact hbad⟩
        refine ⟨e, ?_⟩
        rw [List.foldlM_cons, hstep]
        exact he

/-- `fsOk` unfolded to its per-identifier meaning. -/
theorem fsOk_iff (cfg : Config) (fs : FS) :
    fsOk cfg fs = true ↔
      ∀ j, j < cfg.GRID_SIZE * cfg.GRID_SIZE →
        cellOk cfg fs (cfg.START_TILE + j) = true := by
  simp [fsOk, List.all_eq_true, List.mem_range]

/-- Full characterization of a completed original-variant run: it
completes whenever no expected non-known-missing file is corrupt, the
canvas dimensions are OUTPUT_SIZE x OUTPUT_SIZE, the event trace follows
the column-major `cellId` scheme, and each cell's pixel region holds its
resolved tile. -/
theorem assemble_ok (cfg : Config) (fs : FS) (h : fsOk cfg fs = true) :
    ∃ st, assemble_map cfg fs = .ok st ∧
      st.output_image.width = cfg.OUTPUT_SIZE ∧
      st.output_image.height = cfg.OUTPUT_SIZE ∧
      st.events = specEvents cfg fs ∧
      (0 < cfg.TILE_SIZE →
        ∀ c r dx dy, c < cfg.GRID_SIZE → r < cfg.GRID_SIZE →
          dx < cfg.TILE_SIZE → dy < cfg.TILE_SIZE →
          st.output_image.pix (c * cfg.TILE_SIZE + dx)
              (r * cfg.TILE_SIZE + dy) =
            (resolveTile cfg fs (cellId cfg c r)).pix dx dy) := by
  have hok : ∀ j, j < (cells cfg).length →
      cellOk cfg fs ((init cfg).tile_num + j) = true := by
    intro j hj
    rw [cells_length] at hj
    exact (fsOk_iff cfg fs).mp h j hj
  obtain ⟨st, hfold, htn, hw, hh, hev, hpix⟩ :=
    fold_spec cfg fs (cells cfg) (init cfg) hok
  refine ⟨st, hfold, ?_, ?_, ?_, ?_⟩
  · rw [hw]; rfl
  · rw [hh]; rfl
  · rw [hev]
    have hids : ∀ j (hj : j < (cells cfg).length),
        cellId cfg ((cells cfg).get ⟨j, hj⟩).1 ((cells cfg).get ⟨j, hj⟩).2 =
          (init cfg).tile_num + j := by
      intro j hj
      rw [cells_get_any cfg j hj]
      have hdm : j / cfg.GRID_SIZE * cfg.GRID_SIZE + j % cfg.GRID_SIZE = j := by
        rw [Nat.mul_comm]; exact Nat.div_add_mod j cfg.GRID_SIZE
      show cfg.START_TILE + j / cfg.GRID_SIZE * cfg.GRID_SIZE +
          j % cfg.GRID_SIZE = cfg.START_TILE + j
      rw [Nat.add_assoc, hdm]
    rw [eventsFor_eq cfg fs (cells cfg) (init cfg).tile_num hids]
    simp [specEvents, init]
  · intro hT c r dx dy hc hr hdx hdy
    have hx : c * cfg.TILE_SIZE + dx < cfg.GRID_SIZE * cfg.TILE_SIZE := by
      calc c * cfg.TILE_SIZE + dx < c * cfg.TILE_SIZE + cfg.TILE_SIZE :=
            Nat.add_lt_add_left hdx _
        _ = (c + 1) * cfg.TILE_SIZE := (Nat.succ_mul _ _).symm
        _ ≤ cfg.GRID_SIZE * cfg.TILE_SIZE := Nat.mul_le_mul_right _ hc
    have hy : r * cfg.TILE_SIZE + dy < cfg.GRID_SIZE * cfg.TILE_SIZE := by
      calc r * cfg.TILE_SIZE + dy < r * cfg.TILE_SIZE + cfg.TILE_SIZE :=
            Nat.add_lt_add_left hdy _
        _ = (r + 1) * cfg.TILE_SIZE := (Nat.succ_mul _ _).symm
        _ ≤ cfg.GRID_SIZE * cfg.TILE_SIZE := Nat.mul_le_mul_right _ hr
    have hdc : (c * cfg.TILE_SIZE + dx) / cfg.TILE_SIZE = c := by
      rw [Nat.mul_comm c cfg.TILE_SIZE, Nat.mul_add_div hT,
        Nat.div_eq_of_lt hdx, Nat.add_zero]
    have hdr : (r * cfg.TILE_SIZE + dy) / cfg.TILE_SIZE = r := by
      rw [Nat.mul_comm r cfg.TILE_SIZE, Nat.mul_add_div hT,
        Nat.div_eq_of_lt hdy, Nat.add_zero]
    have hlo := lastOwner_cells cfg hT (c * cfg.TILE_SIZE + dx)
      (r * cfg.TILE_SIZE + dy) hx hy
    rw [hdc, hdr] at hlo
    have hp := hpix (c * cfg.TILE_SIZE + dx) (r * cfg.TILE_SIZE + dy)
    rw [hlo] at hp
    rw [hp]
    have hsx : c * cfg.TILE_SIZE + dx - c * cfg.TILE_SIZE = dx :=
      Nat.add_sub_cancel_left _ _
    have hsy : r * cfg.TILE_SIZE + dy - r * cfg.TILE_SIZE = dy :=
      Nat.add_sub_cancel_left _ _
    have hid : (init cfg).tile_num + (c * cfg.GRID_SIZE + r) =
        cellId cfg c r := by
      show cfg.START_TILE + (c * cfg.GRID_SIZE + r) =
        cfg.START_TILE + c * cfg.GRID_SIZE + r
      rw [Nat.add_assoc]
    simp only [hsx, hsy, hid]

/-- If some expected non-known-missing file is corrupt, the run raises. -/
theorem assemble_err (cfg : Config) (fs : FS) (h : fsOk cfg fs = false) :
    ∃ e, assemble_map cfg fs = .error e := by
  have hbad : ∃ j, j < cfg.GRID_SIZE * cfg.GRID_SIZE ∧
      cellOk cfg fs (cfg.START_TILE + j) = false := by
    by_contra hno
    push_neg at hno
    have hall : fsOk cfg fs = true := by
      rw [fsOk_iff]
      intro j hj
      cases hcv : cellOk cfg fs (cfg.START_TILE + j) with
      | true => rfl
      | false => exact absurd hcv (hno j hj)
    rw [hall] at h
    exact Bool.noConfusion h
  obtain ⟨j, hj, hbadj⟩ := hbad
  exact fold_err cfg fs (cells cfg) (init cfg)
    ⟨j, by rw [cells_length]; exact hj, hbadj⟩

/-- If the run completed, no expected non-known-missing file was corrupt. -/
theorem assemble_ok_inv (cfg : Config) (fs : FS) (st : St)
    (h : assemble_map cfg fs = .ok st) : fsOk cfg fs = true := by
  rw [fsOk_iff]
  intro j hj
  exact fold_ok_inv cfg fs (cells cfg) (init cfg) st h j
    (by rw [cells_length]; exact hj)

end Orig

/-! ## Helper lemmas: v1 (row-major) variant -/

namespace V1

/-- Every tile that gets composited is exactly TILE_SIZE wide. -/
theorem v1_resolveTile_width (cfg : Config) (fs : FS) (row col : Nat) :
    (resolveTile cfg fs row col).width = cfg.TILE_SIZE := by
  unfold resolveTile
  split
  · rename_i t heq
    split
    · rfl
    · rename_i h
      have h2 : t.size = (cfg.TILE_SIZE, cfg.TILE_SIZE) := not_not.mp h
      exact congrArg Prod.fst h2
  · rfl

/-- Every tile that gets composited is exactly TILE_SIZE tall. -/
theorem v1_resolveTile_height (cfg : Config) (fs : FS) (row col : Nat) :
    (resolveTile cfg fs row col).height = cfg.TILE_SIZE := by
  unfold resolveTile
  split
  · rename_i t heq
    split
    · rfl
    · rename_i h
      have h2 : t.size = (cfg.TILE_SIZE, cfg.TILE_SIZE) := not_not.mp h
      exact congrArg Prod.snd h2
  · rfl

/-- Characterization of one non-raising loop iteration: a present
decodable file is pasted at the cell's offset; an absent file pastes
nothing. -/
theorem v1_step_ok (cfg : Config) (fs : FS) (st : St) (p : Nat × Nat)
    (h : cellOk fs p = true) :
    ∃ st1, step cfg fs st p = .ok st1 ∧
      st1.output_image = (if pastes fs p then
          st.output_image.paste (resolveTile cfg fs p.1 p.2)
            ((p.2 - 1) * cfg.TILE_SIZE) ((p.1 - 1) * cfg.TILE_SIZE)
        else st.output_image) ∧
      st1.events = st.events ++ cellEvents cfg fs p := by
  cases hf : fs.find (fname p.1 p.2) with
  | none =>
    have hstep : step cfg fs st p = .ok
        { output_image := st.output_image,
          tiles_loaded := st.tiles_loaded,
          tiles_missing := st.tiles_missing + 1,
          events := st.events ++ [Ev.existsCheck (fname p.1 p.2)] } := by
      simp [step, hf]
    exact ⟨_, hstep, by simp [pastes, hf], by simp [cellEvents, hf]⟩
  | some tf =>
    cases tf with
    | corrupt =>
      exfalso
      simp [cellOk, isCorruptAt, hf] at h
    | decodable t =>
      have hstep : step cfg fs st p = .ok
          { output_image := st.output_image.paste
              (if t.size = (cfg.TILE_SIZE, cfg.TILE_SIZE) then t
               else t.resize cfg.TILE_SIZE cfg.TILE_SIZE)
              ((p.2 - 1) * cfg.TILE_SIZE) ((p.1 - 1) * cfg.TILE_SIZE),
            tiles_loaded := st.tiles_loaded + 1,
            tiles_missing := st.tiles_missing,
            events := st.events ++
              [Ev.existsCheck (fname p.1 p.2), Ev.openFile (fname p.1 p.2),
               Ev.paste ((p.2 - 1) * cfg.TILE_SIZE)
                 ((p.1 - 1) * cfg.TILE_SIZE)
                 (if t.size = (cfg.TILE_SIZE, cfg.TILE_SIZE) then t
                  else t.resize cfg.TILE_SIZE cfg.TILE_SIZE)] } := by
        simp [step, hf]
      exact ⟨_, hstep, by simp [pastes, resolveTile, hf],
        by simp [cellEvents, resolveTile, hf]⟩

/-- A non-raising iteration implies its file was not corrupt. -/
theorem v1_step_ok_inv (cfg : Config) (fs : FS) (st : St) (p : Nat × Nat)
    (st1 : St) (h : step cfg fs st p = .ok st1) : cellOk fs p = true := by
  cases hf : fs.find (fname p.1 p.2) with
  | none => simp [cellOk, isCorruptAt, hf]
  | some tf =>
    cases tf with
    | decodable t => simp [cellOk, isCorruptAt, hf]
    | corrupt => simp [step, hf] at h

/-- A corrupt file makes the iteration raise on exactly its file. -/
theorem v1_step_err (cfg : Config) (fs : FS) (st : St) (p : Nat × Nat)
    (h : cellOk fs p = false) :
    step cfg fs st p = .error (fname p.1 p.2) := by
  have hc : isCorruptAt fs (fname p.1 p.2) = true := by
    cases hcc : isCorruptAt fs (fname p.1 p.2) with
    | true => rfl
    | false => exfalso; simp [cellOk, hcc] at h
  unfold isCorruptAt at hc
  cases hf : fs.find (fname p.1 p.2) with
  | none => rw [hf] at hc; simp at hc
  | some tf =>
    cases tf with
    | decodable t => rw [hf] at hc; simp at hc
    | corrupt => simp [step, hf]

/-- Master lemma for the v1 paste loop: when no visited file raises, the
fold completes, canvas dimensions are preserved, the trace is the per-cell
events, and each pixel holds the tile of the last cell that pasted over
it (or the incoming pixel when none did). -/
theorem v1_fold_spec (cfg : Config) (fs : FS) (l : List (Nat × Nat)) :
    ∀ st : St, (∀ p ∈ l, cellOk fs p = true) →
      ∃ st1, l.foldlM (step cfg fs) st = .ok st1 ∧
        st1.output_image.width = st.output_image.width ∧
        st1.output_image.height = st.output_image.height ∧
        st1.events = st.events ++ l.flatMap (cellEvents cfg fs) ∧
        ∀ x y,
          st1.output_image.pix x y =
            match lastPaster cfg fs l x y with
            | some q =>
                (resolveTile cfg fs q.1 q.2).pix
                  (x - (q.2 - 1) * cfg.TILE_SIZE)
                  (y - (q.1 - 1) * cfg.TILE_SIZE)
            | none => st.output_image.pix x y := by
  induction l with
  | nil =>
    intro st _
    exact ⟨st, rfl, rfl, rfl, by simp, fun x y => by simp [lastPaster]⟩
  | cons p rest ih =>
    intro st hok
    obtain ⟨st1, hstep, himg, hev⟩ :=
      v1_step_ok cfg fs st p (hok p (List.mem_cons_self p rest))
    obtain ⟨st2, hfold, hw, hh, hev2, hpix⟩ :=
      ih st1 fun q hq => hok q (List.mem_cons_of_mem p hq)
    refine ⟨st2, ?_, ?_, ?_, ?_, ?_⟩
    · rw [List.foldlM_cons, hstep]; exact hfold
    · rw [hw, himg]
      by_cases hpa : pastes fs p <;> simp [hpa, Img.paste]
    · rw [hh, himg]
      by_cases hpa : pastes fs p <;> simp [hpa, Img.paste]
    · rw [hev2, hev]
      simp [List.append_assoc]
    · intro x y
      have hp2 := hpix x y
      cases h1 : lastPaster cfg fs rest x y with
      | some q =>
        rw [h1] at hp2
        have h2 : lastPaster cfg fs (p :: rest) x y = some q := by
          simp [lastPaster, h1]
        rw [h2, hp2]
      | none =>
        rw [h1] at hp2
        have h2 : lastPaster cfg fs (p :: rest) x y =
            if pastes fs p ∧ owns cfg p x y then some p else none := by
          simp [lastPaster, h1]
        rw [h2, hp2, himg]
        by_cases hpa : pastes fs p
        · rw [if_pos hpa]
          by_cases ho : owns cfg p x y
          · rw [if_pos ⟨hpa, ho⟩]
            have hc : (p.2 - 1) * cfg.TILE_SIZE ≤ x ∧
                x < (p.2 - 1) * cfg.TILE_SIZE +
                  (resolveTile cfg fs p.1 p.2).width ∧
                (p.1 - 1) * cfg.TILE_SIZE ≤ y ∧
                y < (p.1 - 1) * cfg.TILE_SIZE +
                  (resolveTile cfg fs p.1 p.2).height := by
              rw [v1_resolveTile_width, v1_resolveTile_height]
              exact ho
            simp only [Img.paste, if_pos hc]
          · rw [if_neg fun hand => ho hand.2]
            have hc : ¬((p.2 - 1) * cfg.TILE_SIZE ≤ x ∧
                x < (p.2 - 1) * cfg.TILE_SIZE +
                  (resolveTile cfg fs p.1 p.2).width ∧
                (p.1 - 1) * cfg.TILE_SIZE ≤ y ∧
                y < (p.1 - 1) * cfg.TILE_SIZE +
                  (resolveTile cfg fs p.1 p.2).height) := by
              rw [v1_resolveTile_width, v1_resolveTile_height]
              exact ho
            simp only [Img.paste, if_neg hc]
        · rw [if_neg hpa, if_neg fun hand => hpa hand.1]

/-- If a run of the loop completed, no visited file was corrupt. -/
theorem v1_fold_ok_inv (cfg : Config) (fs : FS) (l : List (Nat × Nat)) :
    ∀ st st1, l.foldlM (step cfg fs) st = .ok st1 →
      ∀ p ∈ l, cellOk fs p = true := by
  induction l with
  | nil => intro st st1 _ p hp; cases hp
  | cons q rest ih =>
    intro st st1 h p hp
    rw [List.foldlM_cons] at h
    cases hs : step cfg fs st q with
    | error e => rw [hs] at h; exact Except.noConfusion h
    | ok stm =>
      rw [hs] at h
      have h2 : rest.foldlM (step cfg fs) stm = .ok st1 := h
      rcases List.mem_cons.mp hp with hpq | hprest
      · subst hpq; exact v1_step_ok_inv cfg fs st p stm hs
      · exact ih stm st1 h2 p hprest

/-- If some visited file is corrupt, the loop raises. -/
theorem v1_fold_err (cfg : Config) (fs : FS) (l : List (Nat × Nat)) :
    ∀ st, (∃ p, p ∈ l ∧ cellOk fs p = false) →
      ∃ e, l.foldlM (step cfg fs) st = .error e := by
  induction l with
  | nil => intro st ⟨p, hp, _⟩; cases hp
  | cons q rest ih =>
    intro st ⟨p, hp, hbad⟩
    cases hck : cellOk fs q with
    | false =>
      refine ⟨fname q.1 q.2, ?_⟩
      rw [List.foldlM_cons, v1_step_err cfg fs st q hck]
      rfl
    | true =>
      obtain ⟨st1, hstep, _, _⟩ := v1_step_ok cfg fs st q hck
      rcases List.mem_cons.mp hp with hpq | hprest
      · subst hpq; rw [hck] at hbad; exact absurd hbad (by simp)
      · obtain ⟨e, he⟩ := ih st1 ⟨p, hprest, hbad⟩
        refine ⟨e, ?_⟩
        rw [List.foldlM_cons, hstep]
        exact he

/-- A pixel is in a cell's paste region iff the cell's 0-based indices are
the pixel's quotients. -/
theorem v1_owns_iff (cfg : Config) (hT : 0 < cfg.TILE_SIZE) (p : Nat × Nat)
    (x y : Nat) :
    owns cfg p x y ↔
      p.2 - 1 = x / cfg.TILE_SIZE ∧ p.1 - 1 = y / cfg.TILE_SIZE := by
  unfold owns
  constructor
  · rintro ⟨h1, h2, h3, h4⟩
    refine ⟨?_, ?_⟩
    · exact (Nat.div_eq_of_lt_le h1 (by rw [Nat.succ_mul]; omega)).symm
    · exact (Nat.div_eq_of_lt_le h3 (by rw [Nat.succ_mul]; omega)).symm
  · rintro ⟨h1, h2⟩
    have hx := Nat.div_add_mod x cfg.TILE_SIZE
    have hy := Nat.div_add_mod y cfg.TILE_SIZE
    have hxm := Nat.mod_lt x hT
    have hym := Nat.mod_lt y hT
    rw [h1, h2]
    refine ⟨?_, ?_, ?_, ?_⟩
    · rw [Nat.mul_comm]; exact Nat.le.intro hx
    · rw [Nat.mul_comm]
      calc x = cfg.TILE_SIZE * (x / cfg.TILE_SIZE) + x % cfg.TILE_SIZE :=
            hx.symm
        _ < cfg.TILE_SIZE * (x / cfg.TILE_SIZE) + cfg.TILE_SIZE :=
            Nat.add_lt_add_left hxm _
    · rw [Nat.mul_comm]; exact Nat.le.intro hy
    · rw [Nat.mul_comm]
      calc y = cfg.TILE_SIZE * (y / cfg.TILE_SIZE) + y % cfg.TILE_SIZE :=
            hy.symm
        _ < cfg.TILE_SIZE * (y / cfg.TILE_SIZE) + cfg.TILE_SIZE :=
            Nat.add_lt_add_left hym _

/-- If no element of `l` both pastes and owns the pixel, no paste of `l`
touches it. -/
theorem lastPaster_none (cfg : Config) (fs : FS) (l : List (Nat × Nat))
    (x y : Nat) (h : ∀ p ∈ l, ¬(pastes fs p ∧ owns cfg p x y)) :
    lastPaster cfg fs l x y = none := by
  induction l with
  | nil => rfl
  | cons p rest ih =>
    have hr := ih fun q hq => h q (List.mem_cons_of_mem p hq)
    simp [lastPaster, hr, h p (List.mem_cons_self p rest)]

/-- If the pasting owners of the pixel in `l` are all one cell `q`, the
last paster is `q`. -/
theorem lastPaster_unique (cfg : Config) (fs : FS) (l : List (Nat × Nat))
    (x y : Nat) (q : Nat × Nat) (hq : q ∈ l)
    (hsat : pastes fs q ∧ owns cfg q x y)
    (huniq : ∀ p ∈ l, pastes fs p ∧ owns cfg p x y → p = q) :
    lastPaster cfg fs l x y = some q := by
  induction l with
  | nil => cases hq
  | cons p rest ih =>
    by_cases hrest : ∃ p2, p2 ∈ rest ∧ pastes fs p2 ∧ owns cfg p2 x y
    · obtain ⟨p2, hp2mem, hp2⟩ := hrest
      have hp2q : p2 = q := huniq p2 (List.mem_cons_of_mem p hp2mem) hp2
      subst hp2q
      have hres := ih hp2mem
        fun p3 h3 hs3 => huniq p3 (List.mem_cons_of_mem p h3) hs3
      simp [lastPaster, hres]
    · push_neg at hrest
      have hnone : lastPaster cfg fs rest x y = none :=
        lastPaster_none cfg fs rest x y fun p2 h2 hc =>
          hrest p2 h2 hc.1 hc.2
      rcases List.mem_cons.mp hq with hqp | hqrest
      · subst hqp
        simp only [lastPaster, hnone]
        rw [if_pos hsat]
      · exact absurd hsat.2 (hrest q hqrest hsat.1)

/-- The visit order is `j ↦ (1 + j / GRID_COLS, 1 + j % GRID_COLS)` over
`range (GRID_ROWS * GRID_COLS)`. -/
theorem v1_cells_eq (cfg : Config) :
    cells cfg = (List.range (cfg.GRID_ROWS * cfg.GRID_COLS)).map
      fun j => (1 + j / cfg.GRID_COLS, 1 + j % cfg.GRID_COLS) := by
  have h := congrArg
    (List.map fun p : Nat × Nat => (1 + p.1, 1 + p.2))
    (grid_enum_eq cfg.GRID_ROWS cfg.GRID_COLS)
  rw [List.map_flatMap] at h
  simp only [List.map_map, Function.comp] at h
  unfold cells
  rw [List.range'_eq_map_range, List.range'_eq_map_range, List.flatMap_map]
  simp only [List.map_map, Function.comp]
  exact h

/-- The traversal visits GRID_ROWS * GRID_COLS cells. -/
theorem v1_cells_length (cfg : Config) :
    (cells cfg).length = cfg.GRID_ROWS * cfg.GRID_COLS := by
  rw [v1_cells_eq]; simp

/-- Membership in the visit list is exactly the 1-based grid bounds. -/
theorem v1_mem_cells (cfg : Config) (pr pc : Nat) :
    (pr, pc) ∈ cells cfg ↔
      1 ≤ pr ∧ pr ≤ cfg.GRID_ROWS ∧ 1 ≤ pc ∧ pc ≤ cfg.GRID_COLS := by
  unfold cells
  simp only [List.mem_flatMap, List.mem_map, List.mem_range']
  constructor
  · rintro ⟨row, ⟨i, hi, rfl⟩, col, ⟨k, hk, rfl⟩, heq⟩
    have h1 := congrArg Prod.fst heq
    have h2 := congrArg Prod.snd heq
    simp at h1 h2
    omega
  · rintro ⟨h1, h2, h3, h4⟩
    refine ⟨pr, ⟨pr - 1, by omega, by omega⟩,
      pc, ⟨pc - 1, by omega, by omega⟩, rfl⟩

/-- Full characterization of a completed v1 paste loop: it completes
whenever no grid tile file is corrupt, canvas dimensions are
ASSEMBLED_SIZE x ASSEMBLED_SIZE, the trace follows the row-major order,
and each cell's region holds its tile when one was pasted and stays
canvas-black otherwise. -/
theorem assembleLoop_ok (cfg : Config) (fs : FS) (h : fsOk cfg fs = true) :
    ∃ st, assembleLoop cfg fs = .ok st ∧
      st.output_image.width = cfg.ASSEMBLED_SIZE ∧
      st.output_image.height = cfg.ASSEMBLED_SIZE ∧
      st.events = specEvents cfg fs ∧
      (0 < cfg.TILE_SIZE →
        ∀ r c dx dy, 1 ≤ r → r ≤ cfg.GRID_ROWS → 1 ≤ c → c ≤ cfg.GRID_COLS →
          dx < cfg.TILE_SIZE → dy < cfg.TILE_SIZE →
          st.output_image.pix ((c - 1) * cfg.TILE_SIZE + dx)
              ((r - 1) * cfg.TILE_SIZE + dy) =
            if pastes fs (r, c) then (resolveTile cfg fs r c).pix dx dy
            else black) := by
  have hok : ∀ p ∈ cells cfg, cellOk fs p = true := by
    intro p hp
    exact List.all_eq_true.mp h p hp
  obtain ⟨st, hfold, hw, hh, hev, hpix⟩ :=
    v1_fold_spec cfg fs (cells cfg) (init cfg) hok
  refine ⟨st, hfold, by rw [hw]; rfl, by rw [hh]; rfl,
    by rw [hev]; simp [specEvents, init], ?_⟩
  intro hT r c dx dy hr1 hrR hc1 hcC hdx hdy
  have hdc : ((c - 1) * cfg.TILE_SIZE + dx) / cfg.TILE_SIZE = c - 1 := by
    rw [Nat.mul_comm (c - 1) cfg.TILE_SIZE, Nat.mul_add_div hT,
      Nat.div_eq_of_lt hdx, Nat.add_zero]
  have hdr : ((r - 1) * cfg.TILE_SIZE + dy) / cfg.TILE_SIZE = r - 1 := by
    rw [Nat.mul_comm (r - 1) cfg.TILE_SIZE, Nat.mul_add_div hT,
      Nat.div_eq_of_lt hdy, Nat.add_zero]
  have howns : owns cfg (r, c) ((c - 1) * cfg.TILE_SIZE + dx)
      ((r - 1) * cfg.TILE_SIZE + dy) :=
    (v1_owns_iff cfg hT (r, c) _ _).mpr ⟨hdc.symm, hdr.symm⟩
  have huniq : ∀ p ∈ cells cfg,
      pastes fs p ∧ owns cfg p ((c - 1) * cfg.TILE_SIZE + dx)
        ((r - 1) * cfg.TILE_SIZE + dy) → p = (r, c) := by
    intro p hp hpo
    obtain ⟨pr2, pc2⟩ := p
    have hop := (v1_owns_iff cfg hT (pr2, pc2) _ _).mp hpo.2
    rw [hdc, hdr] at hop
    have hm := (v1_mem_cells cfg pr2 pc2).mp hp
    have e1 : pc2 = c := by omega
    have e2 : pr2 = r := by omega
    rw [e1, e2]
  have hpx := hpix ((c - 1) * cfg.TILE_SIZE + dx)
    ((r - 1) * cfg.TILE_SIZE + dy)
  have hsx : (c - 1) * cfg.TILE_SIZE + dx - (c - 1) * cfg.TILE_SIZE = dx :=
    Nat.add_sub_cancel_left _ _
  have hsy : (r - 1) * cfg.TILE_SIZE + dy - (r - 1) * cfg.TILE_SIZE = dy :=
    Nat.add_sub_cancel_left _ _
  by_cases hpa : pastes fs (r, c)
  · have hlp : lastPaster cfg fs (cells cfg)
        ((c - 1) * cfg.TILE_SIZE + dx) ((r - 1) * cfg.TILE_SIZE + dy) =
        some (r, c) :=
      lastPaster_unique cfg fs (cells cfg) _ _ (r, c)
        ((v1_mem_cells cfg r c).mpr ⟨hr1, hrR, hc1, hcC⟩) ⟨hpa, howns⟩ huniq
    rw [hlp] at hpx
    rw [hpx, if_pos hpa]
    simp only [hsx, hsy]
  · have hlp : lastPaster cfg fs (cells cfg)
        ((c - 1) * cfg.TILE_SIZE + dx) ((r - 1) * cfg.TILE_SIZE + dy) =
        none := by
      apply lastPaster_none
      intro p hp hcon
      have hpq : p = (r, c) := huniq p hp hcon
      rw [hpq] at hcon
      exact hpa hcon.1
    rw [hlp] at hpx
    rw [hpx, if_neg hpa]
    rfl

/-- If some grid tile file is corrupt, the run raises. -/
theorem v1_assemble_err (cfg : Config) (fs : FS) (h : fsOk cfg fs = false) :
    ∃ e, assemble_map cfg fs = .error e := by
  have hbad : ∃ p, p ∈ cells cfg ∧ cellOk fs p = false := by
    by_contra hno
    push_neg at hno
    have hall : fsOk cfg fs = true := by
      rw [fsOk, List.all_eq_true]
      intro p hp
      cases hcv : cellOk fs p with
      | true => rfl
      | false => exact absurd hcv (hno p hp)
    rw [hall] at h
    exact Bool.noConfusion h
  obtain ⟨e, he⟩ := v1_fold_err cfg fs (cells cfg) (init cfg) hbad
  refine ⟨e, ?_⟩
  unfold assemble_map assembleLoop
  rw [he]
  rfl

/-- If the run completed, no grid tile file was corrupt. -/
theorem v1_assemble_ok_inv (cfg : Config) (fs : FS) (st : St)
    (h : assemble_map cfg fs = .ok st) : fsOk cfg fs = true := by
  rw [fsOk, List.all_eq_true]
  intro p hp
  unfold assemble_map at h
  cases hl : assembleLoop cfg fs with
  | error e => rw [hl] at h; exact Except.noConfusion h
  | ok st0 =>
    exact v1_fold_ok_inv cfg fs (cells cfg) (init cfg) st0 hl p hp

/-- The saved image is a single holistic resample of the loop's canvas. -/
theorem assemble_map_eq (cfg : Config) (fs : FS) (st0 : St)
    (h : assembleLoop cfg fs = .ok st0) :
    assemble_map cfg fs = .ok
      { st0 with output_image :=
          st0.output_image.resize cfg.GAME_SIZE cfg.GAME_SIZE } := by
  unfold assemble_map
  rw [h]
  rfl

end V1

/-! ## Data-dependence (congruence) lemmas -/

namespace Orig

/-- One iteration only consults the directory at its own filename. -/
theorem step_congr (cfg : Config) (fs1 fs2 : FS) (st : St) (p : Nat × Nat)
    (h : fs1.find (fname st.tile_num) = fs2.find (fname st.tile_num)) :
    step cfg fs1 st p = step cfg fs2 st p := by
  simp only [step, h]

/-- The loop only consults the directory at the visited filenames. -/
theorem fold_congr (cfg : Config) (fs1 fs2 : FS) (l : List (Nat × Nat)) :
    ∀ st : St,
      (∀ j, j < l.length →
        fs1.find (fname (st.tile_num + j)) =
          fs2.find (fname (st.tile_num + j))) →
      l.foldlM (step cfg fs1) st = l.foldlM (step cfg fs2) st := by
  induction l with
  | nil => intro st _; rfl
  | cons p rest ih =>
    intro st hagree
    rw [List.foldlM_cons, List.foldlM_cons,
      step_congr cfg fs1 fs2 st p (by simpa using hagree 0 (by simp))]
    cases hs : step cfg fs2 st p with
    | error e => rfl
    | ok st1 =>
      show rest.foldlM (step cfg fs1) st1 = rest.foldlM (step cfg fs2) st1
      apply ih
      intro j hj
      obtain ⟨_, htn⟩ := step_ok_inv cfg fs2 st p st1 hs
      rw [htn]
      have heq : st.tile_num + 1 + j = st.tile_num + (j + 1) := by omega
      rw [heq]
      exact hagree (j + 1) (by simp; omega)

/-- The run's outcome depends only on the expected filenames' entries. -/
theorem assemble_congr (cfg : Config) (fs1 fs2 : FS)
    (h : ∀ n, n ∈ expectedIds cfg →
      fs1.find (fname n) = fs2.find (fname n)) :
    assemble_map cfg fs1 = assemble_map cfg fs2 := by
  unfold assemble_map
  apply fold_congr
  intro j hj
  apply h
  rw [cells_length] at hj
  have hinit : (init cfg).tile_num = cfg.START_TILE := rfl
  rw [hinit, expectedIds, List.mem_range']
  exact ⟨j, hj, by omega⟩

end Orig

namespace V1

/-- One iteration only consults the directory at its own filename. -/
theorem v1_step_congr (cfg : Config) (fs1 fs2 : FS) (st : St) (p : Nat × Nat)
    (h : fs1.find (fname p.1 p.2) = fs2.find (fname p.1 p.2)) :
    step cfg fs1 st p = step cfg fs2 st p := by
  simp only [step, h]

/-- The loop only consults the directory at the visited filenames. -/
theorem v1_fold_congr (cfg : Config) (fs1 fs2 : FS) (l : List (Nat × Nat))
    (hagree : ∀ p ∈ l, fs1.find (fname p.1 p.2) = fs2.find (fname p.1 p.2)) :
    ∀ st : St, l.foldlM (step cfg fs1) st = l.foldlM (step cfg fs2) st := by
  induction l with
  | nil => intro st; rfl
  | cons p rest ih =>
    intro st
    rw [List.foldlM_cons, List.foldlM_cons,
      v1_step_congr cfg fs1 fs2 st p (hagree p (List.mem_cons_self p rest))]
    cases hs : step cfg fs2 st p with
    | error e => rfl
    | ok st1 =>
      show rest.foldlM (step cfg fs1) st1 = rest.foldlM (step cfg fs2) st1
      exact ih (fun q hq => hagree q (List.mem_cons_of_mem p hq)) st1

/-- The run's outcome depends only on the grid filenames' entries. -/
theorem v1_assemble_congr (cfg : Config) (fs1 fs2 : FS)
    (h : ∀ p, p ∈ cells cfg →
      fs1.find (fname p.1 p.2) = fs2.find (fname p.1 p.2)) :
    assemble_map cfg fs1 = assemble_map cfg fs2 := by
  unfold assemble_map assembleLoop
  rw [v1_fold_congr cfg fs1 fs2 (cells cfg) h (init cfg)]

end V1

/-- Membership in the column-major visit list is exactly the 0-based grid
bounds. -/
theorem Orig.mem_cells (cfg : Orig.Config) (c r : Nat) :
    (c, r) ∈ Orig.cells cfg ↔ c < cfg.GRID_SIZE ∧ r < cfg.GRID_SIZE := by
  unfold Orig.cells
  simp only [List.mem_flatMap, List.mem_map, List.mem_range]
  constructor
  · rintro ⟨a, ha, b, hb, heq⟩
    have h1 := congrArg Prod.fst heq
    have h2 := congrArg Prod.snd heq
    simp at h1 h2
    omega
  · rintro ⟨hc, hr⟩
    exact ⟨c, hc, r, hr, rfl⟩

/-- Counting pairs is the same under the product `BEq` and the one derived
from decidable equality. -/
theorem count_decEq (p : Nat × Nat) (l : List (Nat × Nat)) :
    l.count p = @List.count _ instBEqOfDecidableEq p l := by
  induction l with
  | nil => rfl
  | cons q rest ih =>
    simp only [List.count_cons]
    rw [ih]
    congr 1
    by_cases h : q = p
    · subst h
      rw [if_pos (beq_self_eq_true q), if_pos (beq_self_eq_true' q)]
    · have hc1 : (q == p) = false := beq_eq_false_iff_ne.mpr h
      have hc2 : (@BEq.beq _ instBEqOfDecidableEq q p) = false :=
        decide_eq_false h
      rw [if_neg fun ht => Bool.noConfusion (hc1.symm.trans ht),
        if_neg fun ht => Bool.noConfusion (hc2.symm.trans ht)]

/-! ## The claims -/

set_option maxRecDepth 16384

/-- C1 counterexample: the claim asserts that, in both variants, an absent
tile file leads to a black placeholder being synthesized and composited
into the canvas.  In the 3x3 row-major variant with an empty tile
directory the run completes with all 9 cells missing and the event trace
contains no paste at all: nothing is composited for absent cells there. -/
theorem C1_counterexample :
    (V1.assemble_map V1.config []).map
        (fun st => (st.tiles_missing, st.events.any Ev.isPaste)) =
      .ok (9, false) := by
  rfl

/-- C1 (amended): for every grid cell whose expected tile file is absent
(and, in the 18x18 variant, whose identifier is not in MISSING_TILES), the
18x18 column-major assembler synthesizes a black TILE_SIZE x TILE_SIZE
placeholder and composites it at the cell's offset, while the 3x3
row-major assembler composites nothing for that cell (its events are just
the existence check); in both variants the cell's pixel region of the
assembled canvas is solid black and the assembly still completes. -/
theorem C1_amended :
    (∀ (cfg : Orig.Config) (fs : FS) (c r : Nat),
      0 < cfg.TILE_SIZE → Orig.fsOk cfg fs = true →
      c < cfg.GRID_SIZE → r < cfg.GRID_SIZE →
      Orig.cellId cfg c r ∉ cfg.MISSING_TILES →
      fs.find (Orig.fname (Orig.cellId cfg c r)) = none →
      ∃ st, Orig.assemble_map cfg fs = .ok st ∧
        Ev.paste (c * cfg.TILE_SIZE) (r * cfg.TILE_SIZE)
          (Orig.create_blank_tile cfg) ∈ st.events ∧
        ∀ dx dy, dx < cfg.TILE_SIZE → dy < cfg.TILE_SIZE →
          st.output_image.pix (c * cfg.TILE_SIZE + dx)
            (r * cfg.TILE_SIZE + dy) = black) ∧
    (∀ (cfg : V1.Config) (fs : FS) (r c : Nat),
      0 < cfg.TILE_SIZE → V1.fsOk cfg fs = true →
      1 ≤ r → r ≤ cfg.GRID_ROWS → 1 ≤ c → c ≤ cfg.GRID_COLS →
      fs.find (V1.fname r c) = none →
      V1.cellEvents cfg fs (r, c) = [Ev.existsCheck (V1.fname r c)] ∧
      ∃ st0 st, V1.assembleLoop cfg fs = .ok st0 ∧
        V1.assemble_map cfg fs = .ok st ∧
        ∀ dx dy, dx < cfg.TILE_SIZE → dy < cfg.TILE_SIZE →
          st0.output_image.pix ((c - 1) * cfg.TILE_SIZE + dx)
            ((r - 1) * cfg.TILE_SIZE + dy) = black) := by
  constructor
  · intro cfg fs c r hT hfs hc hr hm hf
    obtain ⟨st, hrun, hw, hh, hev, hpix⟩ := Orig.assemble_ok cfg fs hfs
    refine ⟨st, hrun, ?_, ?_⟩
    · rw [hev]
      apply List.mem_flatMap.mpr
      refine ⟨(c, r), (Orig.mem_cells cfg c r).mpr ⟨hc, hr⟩, ?_⟩
      simp [Orig.cellEvents, hm, hf]
    · intro dx dy hdx hdy
      rw [hpix hT c r dx dy hc hr hdx hdy]
      simp [Orig.resolveTile, hm, hf, Orig.create_blank_tile, Image_new]
  · intro cfg fs r c hT hfs hr1 hrR hc1 hcC hf
    obtain ⟨st0, hloop, hw, hh, hev, hpix⟩ := V1.assembleLoop_ok cfg fs hfs
    have hmap := V1.assemble_map_eq cfg fs st0 hloop
    refine ⟨by simp [V1.cellEvents, hf], st0, _, hloop, hmap, ?_⟩
    intro dx dy hdx hdy
    rw [hpix hT r c dx dy hr1 hrR hc1 hcC hdx hdy]
    have hpa : V1.pastes fs (r, c) = false := by
      simp [V1.pastes, hf]
    simp [hpa]

/-- C1 witness: concrete instantiation of both parts of the amended claim
(18x18 variant at cell (0,0), 3x3 variant at cell (1,1), both with an
empty tile directory). -/
theorem C1_witness :
    (∃ st, Orig.assemble_map Orig.config [] = .ok st ∧
      Ev.paste (0 * Orig.config.TILE_SIZE) (0 * Orig.config.TILE_SIZE)
        (Orig.create_blank_tile Orig.config) ∈ st.events ∧
      ∀ dx dy, dx < Orig.config.TILE_SIZE → dy < Orig.config.TILE_SIZE →
        st.output_image.pix (0 * Orig.config.TILE_SIZE + dx)
          (0 * Orig.config.TILE_SIZE + dy) = black) ∧
    (V1.cellEvents V1.config [] (1, 1) = [Ev.existsCheck (V1.fname 1 1)] ∧
      ∃ st0 st, V1.assembleLoop V1.config [] = .ok st0 ∧
        V1.assemble_map V1.config [] = .ok st ∧
        ∀ dx dy, dx < V1.config.TILE_SIZE → dy < V1.config.TILE_SIZE →
          st0.output_image.pix ((1 - 1) * V1.config.TILE_SIZE + dx)
            ((1 - 1) * V1.config.TILE_SIZE + dy) = black) :=
  ⟨C1_amended.1 Orig.config [] 0 0 (by decide) (by decide) (by decide)
      (by decide) (by decide) rfl,
    C1_amended.2 V1.config [] 1 1 (by decide) (by decide) (by decide)
      (by decide) (by decide) (by decide) rfl⟩

/-- C2 counterexample: the claim asserts that a tile file that exists but
fails to decode never aborts the run.  In the 18x18 variant, a corrupt
file for the first expected identifier 75879 makes `Image.open` raise and
the run aborts with that exception; no composite is produced. -/
theorem C2_counterexample :
    Orig.assemble_map Orig.config [(FName.jpg 75879, TileFile.corrupt)] =
      .error (FName.jpg 75879) := by
  rfl

/-- C2 (amended): per-tile dimension mismatches and missing files are
absorbed (resized or replaced by placeholders) and the composite is
produced whenever every expected, non-known-missing tile file decodes;
but a tile file that exists and fails to decode raises an uncaught error
and aborts the run, producing no output — in both variants. -/
theorem C2_amended :
    (∀ (cfg : Orig.Config) (fs : FS),
      (Orig.fsOk cfg fs = true → ∃ st, Orig.assemble_map cfg fs = .ok st) ∧
      (Orig.fsOk cfg fs = false →
        ∃ e, Orig.assemble_map cfg fs = .error e)) ∧
    (∀ (cfg : V1.Config) (fs : FS),
      (V1.fsOk cfg fs = true → ∃ st, V1.assemble_map cfg fs = .ok st) ∧
      (V1.fsOk cfg fs = false → ∃ e, V1.assemble_map cfg fs = .error e)) := by
  constructor
  · intro cfg fs
    constructor
    · intro h
      obtain ⟨st, hrun, _⟩ := Orig.assemble_ok cfg fs h
      exact ⟨st, hrun⟩
    · exact Orig.assemble_err cfg fs
  · intro cfg fs
    constructor
    · intro h
      obtain ⟨st0, hloop, _⟩ := V1.assembleLoop_ok cfg fs h
      exact ⟨_, V1.assemble_map_eq cfg fs st0 hloop⟩
    · exact V1.v1_assemble_err cfg fs

/-- C2 witness: concrete instantiations — both variants complete on an
empty directory, and the 18x18 variant aborts when the file of identifier
75879 is present but undecodable. -/
theorem C2_witness :
    (∃ st, Orig.assemble_map Orig.config [] = .ok st) ∧
    (∃ st, V1.assemble_map V1.config [] = .ok st) ∧
    (∃ e, Orig.assemble_map Orig.config
      [(FName.jpg 75879, TileFile.corrupt)] = .error e) :=
  ⟨(C2_amended.1 Orig.config []).1 (by decide),
    (C2_amended.2 V1.config []).1 (by decide),
    (C2_amended.1 Orig.config [(FName.jpg 75879, TileFile.corrupt)]).2
      (by decide)⟩

/-- C3: for every identifier in MISSING_TILES, a completed 18x18 run
performs no existence check and no open of that identifier's file — no
event of the trace touches it, whatever the directory holds under that
name — and any grid cell carrying that identifier gets a solid black
pixel region in the output canvas. -/
theorem C3_theorem (cfg : Orig.Config) (fs : FS) (n : Nat)
    (hT : 0 < cfg.TILE_SIZE) (hok : Orig.fsOk cfg fs = true)
    (hn : n ∈ cfg.MISSING_TILES) :
    ∃ st, Orig.assemble_map cfg fs = .ok st ∧
      (∀ e ∈ st.events, Ev.readsFile (Orig.fname n) e = false) ∧
      (∀ c r, c < cfg.GRID_SIZE → r < cfg.GRID_SIZE →
        Orig.cellId cfg c r = n →
        ∀ dx dy, dx < cfg.TILE_SIZE → dy < cfg.TILE_SIZE →
          st.output_image.pix (c * cfg.TILE_SIZE + dx)
            (r * cfg.TILE_SIZE + dy) = black) := by
  obtain ⟨st, hrun, hw, hh, hev, hpix⟩ := Orig.assemble_ok cfg fs hok
  refine ⟨st, hrun, ?_, ?_⟩
  · intro e he
    rw [hev] at he
    obtain ⟨p, hp, hecell⟩ := List.mem_flatMap.mp he
    by_cases hm : Orig.cellId cfg p.1 p.2 ∈ cfg.MISSING_TILES
    · simp [Orig.cellEvents, hm] at hecell
      subst hecell
      rfl
    · have hne : Orig.cellId cfg p.1 p.2 ≠ n := fun h => hm (h ▸ hn)
      have hfne : Orig.fname (Orig.cellId cfg p.1 p.2) ≠ Orig.fname n := by
        intro h
        exact hne (FName.jpg.inj h)
      cases hf : fs.find (Orig.fname (Orig.cellId cfg p.1 p.2)) with
      | none =>
        simp [Orig.cellEvents, hm, hf] at hecell
        rcases hecell with h1 | h1 <;> subst h1 <;>
          simp [Ev.readsFile, hfne]
      | some tf =>
        cases tf with
        | decodable t =>
          simp [Orig.cellEvents, hm, hf] at hecell
          rcases hecell with h1 | h1 | h1 <;> subst h1 <;>
            simp [Ev.readsFile, hfne]
        | corrupt =>
          simp [Orig.cellEvents, hm, hf] at hecell
          rcases hecell with h1 | h1 <;> subst h1 <;>
            simp [Ev.readsFile, hfne]
  · intro c r hc hr hid dx dy hdx hdy
    rw [hpix hT c r dx dy hc hr hdx hdy, hid]
    simp [Orig.resolveTile, hn, Orig.create_blank_tile, Image_new]

/-- C3 witness: identifier 76009 of the concrete configuration, with the
directory actually holding a (corrupt) file under `76009.jpg` — the run
still completes, never touches that file, and blacks out its cell. -/
theorem C3_witness :
    ∃ st, Orig.assemble_map Orig.config
        [(FName.jpg 76009, TileFile.corrupt)] = .ok st ∧
      (∀ e ∈ st.events,
        Ev.readsFile (Orig.fname 76009) e = false) ∧
      (∀ c r, c < Orig.config.GRID_SIZE → r < Orig.config.GRID_SIZE →
        Orig.cellId Orig.config c r = 76009 →
        ∀ dx dy, dx < Orig.config.TILE_SIZE → dy < Orig.config.TILE_SIZE →
          st.output_image.pix (c * Orig.config.TILE_SIZE + dx)
            (r * Orig.config.TILE_SIZE + dy) = black) :=
  C3_theorem Orig.config [(FName.jpg 76009, TileFile.corrupt)] 76009
    (by decide) (by decide) (by decide)

/-- C4: in the column-major variant the identifier resolved for 0-based
cell (c, r) is `START_TILE + c * GRID_SIZE + r`, the filename read for it
is that identifier's `.jpg` name, cell (c, r) is visited at index
`c * GRID_SIZE + r`, and a completed run's event trace follows exactly
this per-cell scheme. -/
theorem C4_theorem (cfg : Orig.Config) (fs : FS)
    (hok : Orig.fsOk cfg fs = true) :
    (∀ c r, Orig.cellId cfg c r =
        cfg.START_TILE + c * cfg.GRID_SIZE + r ∧
      Orig.fname (Orig.cellId cfg c r) =
        FName.jpg (cfg.START_TILE + c * cfg.GRID_SIZE + r)) ∧
    (∀ c r (_ : c < cfg.GRID_SIZE) (_ : r < cfg.GRID_SIZE)
      (h : c * cfg.GRID_SIZE + r < (Orig.cells cfg).length),
      (Orig.cells cfg).get ⟨c * cfg.GRID_SIZE + r, h⟩ = (c, r)) ∧
    ∃ st, Orig.assemble_map cfg fs = .ok st ∧
      st.events = Orig.specEvents cfg fs := by
  refine ⟨fun c r => ⟨rfl, rfl⟩,
    fun c r hc hr h => Orig.cells_get cfg c r hc hr h, ?_⟩
  obtain ⟨st, hrun, _, _, hev, _⟩ := Orig.assemble_ok cfg fs hok
  exact ⟨st, hrun, hev⟩

/-- C4 witness: the concrete 18x18 configuration with an empty directory. -/
theorem C4_witness :
    (∀ c r, Orig.cellId Orig.config c r =
        Orig.config.START_TILE + c * Orig.config.GRID_SIZE + r ∧
      Orig.fname (Orig.cellId Orig.config c r) =
        FName.jpg (Orig.config.START_TILE + c * Orig.config.GRID_SIZE + r)) ∧
    (∀ c r (_ : c < Orig.config.GRID_SIZE) (_ : r < Orig.config.GRID_SIZE)
      (h : c * Orig.config.GRID_SIZE + r < (Orig.cells Orig.config).length),
      (Orig.cells Orig.config).get
        ⟨c * Orig.config.GRID_SIZE + r, h⟩ = (c, r)) ∧
    ∃ st, Orig.assemble_map Orig.config [] = .ok st ∧
      st.events = Orig.specEvents Orig.config [] :=
  C4_theorem Orig.config [] (by decide)

/-- C5: the assembled canvas is exactly (TILE_SIZE * cols) x
(TILE_SIZE * rows) before any upscale (18432 for the 18x18 variant, 3072
for the 3x3 variant, whose grid is square), and with an upscale target the
persisted output is exactly (GAME_SIZE, GAME_SIZE) = (6144, 6144),
obtained by one holistic resample of the fully assembled canvas after all
cell writes. -/
theorem C5_theorem :
    (∀ (cfg : Orig.Config) (fs : FS), Orig.fsOk cfg fs = true →
      ∃ st, Orig.assemble_map cfg fs = .ok st ∧
        st.output_image.width = cfg.TILE_SIZE * cfg.GRID_SIZE ∧
        st.output_image.height = cfg.TILE_SIZE * cfg.GRID_SIZE) ∧
    (∀ (cfg : V1.Config) (fs : FS), V1.fsOk cfg fs = true →
      cfg.GRID_ROWS = cfg.GRID_COLS →
      ∃ st0 st, V1.assembleLoop cfg fs = .ok st0 ∧
        st0.output_image.width = cfg.TILE_SIZE * cfg.GRID_COLS ∧
        st0.output_image.height = cfg.TILE_SIZE * cfg.GRID_ROWS ∧
        V1.assemble_map cfg fs = .ok st ∧
        st.output_image =
          st0.output_image.resize cfg.GAME_SIZE cfg.GAME_SIZE ∧
        st.output_image.width = cfg.GAME_SIZE ∧
        st.output_image.height = cfg.GAME_SIZE) ∧
    Orig.config.OUTPUT_SIZE = 18432 ∧
    V1.config.ASSEMBLED_SIZE = 3072 ∧
    V1.config.GAME_SIZE = 6144 := by
  refine ⟨?_, ?_, rfl, rfl, rfl⟩
  · intro cfg fs h
    obtain ⟨st, hrun, hw, hh, _, _⟩ := Orig.assemble_ok cfg fs h
    exact ⟨st, hrun, hw, hh⟩
  · intro cfg fs h hsq
    obtain ⟨st0, hloop, hw, hh, _, _⟩ := V1.assembleLoop_ok cfg fs h
    refine ⟨st0, _, hloop, hw, by rw [hh, hsq]; rfl,
      V1.assemble_map_eq cfg fs st0 hloop, rfl, rfl, rfl⟩

/-- C5 witness: both concrete configurations with empty directories. -/
theorem C5_witness :
    (∃ st, Orig.assemble_map Orig.config [] = .ok st ∧
      st.output_image.width =
        Orig.config.TILE_SIZE * Orig.config.GRID_SIZE ∧
      st.output_image.height =
        Orig.config.TILE_SIZE * Orig.config.GRID_SIZE) ∧
    (∃ st0 st, V1.assembleLoop V1.config [] = .ok st0 ∧
      st0.output_image.width = V1.config.TILE_SIZE * V1.config.GRID_COLS ∧
      st0.output_image.height = V1.config.TILE_SIZE * V1.config.GRID_ROWS ∧
      V1.assemble_map V1.config [] = .ok st ∧
      st.output_image =
        st0.output_image.resize V1.config.GAME_SIZE V1.config.GAME_SIZE ∧
      st.output_image.width = V1.config.GAME_SIZE ∧
      st.output_image.height = V1.config.GAME_SIZE) :=
  ⟨C5_theorem.1 Orig.config [] (by decide),
    C5_theorem.2.1 V1.config [] (by decide) rfl⟩

/-- C6: each variant's traversal visits every in-range cell exactly once
and visits nothing out of range; and with the offsets x = col0 * TILE_SIZE,
y = row0 * TILE_SIZE every in-canvas pixel lies in the region of exactly
one grid cell, so the regions tile the canvas without gaps or overlaps. -/
theorem C6_theorem :
    (∀ (cfg : Orig.Config) (c r : Nat),
      c < cfg.GRID_SIZE → r < cfg.GRID_SIZE →
      (Orig.cells cfg).count (c, r) = 1) ∧
    (∀ (cfg : Orig.Config) (p : Nat × Nat), p ∈ Orig.cells cfg →
      p.1 < cfg.GRID_SIZE ∧ p.2 < cfg.GRID_SIZE) ∧
    (∀ (cfg : V1.Config) (r c : Nat),
      1 ≤ r → r ≤ cfg.GRID_ROWS → 1 ≤ c → c ≤ cfg.GRID_COLS →
      (V1.cells cfg).count (r, c) = 1) ∧
    (∀ (cfg : V1.Config) (p : Nat × Nat), p ∈ V1.cells cfg →
      1 ≤ p.1 ∧ p.1 ≤ cfg.GRID_ROWS ∧ 1 ≤ p.2 ∧ p.2 ≤ cfg.GRID_COLS) ∧
    (∀ (cfg : Orig.Config), 0 < cfg.TILE_SIZE →
      ∀ x y, x < cfg.GRID_SIZE * cfg.TILE_SIZE →
        y < cfg.GRID_SIZE * cfg.TILE_SIZE →
        ∃! p : Nat × Nat, p.1 < cfg.GRID_SIZE ∧ p.2 < cfg.GRID_SIZE ∧
          Orig.owns cfg p x y) := by
  refine ⟨?_, ?_, ?_, ?_, ?_⟩
  · intro cfg c r hc hr
    have hG : 0 < cfg.GRID_SIZE := Nat.zero_lt_of_lt hc
    have hinj : Function.Injective
        (fun j => (j / cfg.GRID_SIZE, j % cfg.GRID_SIZE)) := by
      intro a b hab
      have h1 := congrArg Prod.fst hab
      have h2 := congrArg Prod.snd hab
      simp at h1 h2
      have ha := Nat.div_add_mod a cfg.GRID_SIZE
      have hb := Nat.div_add_mod b cfg.GRID_SIZE
      rw [← ha, ← hb, h1, h2]
    have hval : ((c * cfg.GRID_SIZE + r) / cfg.GRID_SIZE,
        (c * cfg.GRID_SIZE + r) % cfg.GRID_SIZE) = (c, r) := by
      have h1 : (c * cfg.GRID_SIZE + r) / cfg.GRID_SIZE = c := by
        rw [Nat.mul_comm c cfg.GRID_SIZE, Nat.mul_add_div hG,
          Nat.div_eq_of_lt hr, Nat.add_zero]
      have h2 : (c * cfg.GRID_SIZE + r) % cfg.GRID_SIZE = r := by
        rw [Nat.mul_comm c cfg.GRID_SIZE, Nat.mul_add_mod,
          Nat.mod_eq_of_lt hr]
      rw [h1, h2]
    rw [count_decEq, Orig.cells_eq, ← hval]
    have hmem : c * cfg.GRID_SIZE + r ∈
        List.range (cfg.GRID_SIZE * cfg.GRID_SIZE) := by
      rw [List.mem_range]
      calc c * cfg.GRID_SIZE + r < c * cfg.GRID_SIZE + cfg.GRID_SIZE :=
            Nat.add_lt_add_left hr _
        _ = (c + 1) * cfg.GRID_SIZE := (Nat.succ_mul _ _).symm
        _ ≤ cfg.GRID_SIZE * cfg.GRID_SIZE := Nat.mul_le_mul_right _ hc
    have h2 := List.count_eq_one_of_mem (List.nodup_range _) hmem
    exact (List.count_map_of_injective _ _ hinj _).trans h2
  · intro cfg p hp
    obtain ⟨c, r⟩ := p
    exact (Orig.mem_cells cfg c r).mp hp
  · intro cfg r c hr1 hrR hc1 hcC
    have hC : 0 < cfg.GRID_COLS := by omega
    have hinj : Function.Injective
        (fun j => (1 + j / cfg.GRID_COLS, 1 + j % cfg.GRID_COLS)) := by
      intro a b hab
      have h1 := congrArg Prod.fst hab
      have h2 := congrArg Prod.snd hab
      simp at h1 h2
      have ha := Nat.div_add_mod a cfg.GRID_COLS
      have hb := Nat.div_add_mod b cfg.GRID_COLS
      rw [← ha, ← hb, h1, h2]
    have hval : (1 + ((r - 1) * cfg.GRID_COLS + (c - 1)) / cfg.GRID_COLS,
        1 + ((r - 1) * cfg.GRID_COLS + (c - 1)) % cfg.GRID_COLS) =
        (r, c) := by
      have h1 : ((r - 1) * cfg.GRID_COLS + (c - 1)) / cfg.GRID_COLS =
          r - 1 := by
        rw [Nat.mul_comm (r - 1) cfg.GRID_COLS, Nat.mul_add_div hC,
          Nat.div_eq_of_lt (by omega), Nat.add_zero]
      have h2 : ((r - 1) * cfg.GRID_COLS + (c - 1)) % cfg.GRID_COLS =
          c - 1 := by
        rw [Nat.mul_comm (r - 1) cfg.GRID_COLS, Nat.mul_add_mod,
          Nat.mod_eq_of_lt (by omega)]
      rw [h1, h2]
      have e1 : 1 + (r - 1) = r := by omega
      have e2 : 1 + (c - 1) = c := by omega
      rw [e1, e2]
    rw [count_decEq, V1.v1_cells_eq, ← hval]
    have hmem : (r - 1) * cfg.GRID_COLS + (c - 1) ∈
        List.range (cfg.GRID_ROWS * cfg.GRID_COLS) := by
      rw [List.mem_range]
      calc (r - 1) * cfg.GRID_COLS + (c - 1)
          < (r - 1) * cfg.GRID_COLS + cfg.GRID_COLS :=
            Nat.add_lt_add_left (by omega) _
        _ = (r - 1 + 1) * cfg.GRID_COLS := (Nat.succ_mul _ _).symm
        _ ≤ cfg.GRID_ROWS * cfg.GRID_COLS :=
            Nat.mul_le_mul_right _ (by omega)
    have h2 := List.count_eq_one_of_mem (List.nodup_range _) hmem
    exact (List.count_map_of_injective _ _ hinj _).trans h2
  · intro cfg p hp
    obtain ⟨r, c⟩ := p
    exact (V1.v1_mem_cells cfg r c).mp hp
  · intro cfg hT x y hx hy
    have hc : x / cfg.TILE_SIZE < cfg.GRID_SIZE :=
      Nat.div_lt_of_lt_mul (by rw [Nat.mul_comm] at hx; exact hx)
    have hr : y / cfg.TILE_SIZE < cfg.GRID_SIZE :=
      Nat.div_lt_of_lt_mul (by rw [Nat.mul_comm] at hy; exact hy)
    refine ⟨(x / cfg.TILE_SIZE, y / cfg.TILE_SIZE),
      ⟨hc, hr, (Orig.owns_iff cfg hT _ x y).mpr ⟨rfl, rfl⟩⟩, ?_⟩
    rintro ⟨a, b⟩ ⟨_, _, ho⟩
    have := (Orig.owns_iff cfg hT (a, b) x y).mp ho
    simp at this ⊢
    exact this

/-- C6 witness: concrete instantiations at the corner cell and the origin
pixel of both concrete configurations. -/
theorem C6_witness :
    (Orig.cells Orig.config).count (0, 0) = 1 ∧
    (V1.cells V1.config).count (1, 1) = 1 ∧
    ∃! p : Nat × Nat, p.1 < Orig.config.GRID_SIZE ∧
      p.2 < Orig.config.GRID_SIZE ∧ Orig.owns Orig.config p 0 0 :=
  ⟨C6_theorem.1 Orig.config 0 0 (by decide) (by decide),
    C6_theorem.2.2.1 V1.config 1 1 (by decide) (by decide) (by decide)
      (by decide),
    C6_theorem.2.2.2.2 Orig.config (by decide) 0 0 (by decide) (by decide)⟩

/-- C7: a tile file that decodes to dimensions other than
(TILE_SIZE, TILE_SIZE) is resampled to exactly (TILE_SIZE, TILE_SIZE)
before being composited, the run still completes, the composited tile for
that cell is exactly the resampled one (so its region has no dimension
mismatch), and the cell's pixel region equals the resampled tile — in
both variants. -/
theorem C7_theorem :
    (∀ (cfg : Orig.Config) (fs : FS) (c r : Nat) (t : Img),
      0 < cfg.TILE_SIZE → Orig.fsOk cfg fs = true →
      c < cfg.GRID_SIZE → r < cfg.GRID_SIZE →
      Orig.cellId cfg c r ∉ cfg.MISSING_TILES →
      fs.find (Orig.fname (Orig.cellId cfg c r)) =
        some (TileFile.decodable t) →
      t.size ≠ (cfg.TILE_SIZE, cfg.TILE_SIZE) →
      ∃ st, Orig.assemble_map cfg fs = .ok st ∧
        (t.resize cfg.TILE_SIZE cfg.TILE_SIZE).width = cfg.TILE_SIZE ∧
        (t.resize cfg.TILE_SIZE cfg.TILE_SIZE).height = cfg.TILE_SIZE ∧
        Ev.paste (c * cfg.TILE_SIZE) (r * cfg.TILE_SIZE)
          (t.resize cfg.TILE_SIZE cfg.TILE_SIZE) ∈ st.events ∧
        ∀ dx dy, dx < cfg.TILE_SIZE → dy < cfg.TILE_SIZE →
          st.output_image.pix (c * cfg.TILE_SIZE + dx)
              (r * cfg.TILE_SIZE + dy) =
            (t.resize cfg.TILE_SIZE cfg.TILE_SIZE).pix dx dy) ∧
    (∀ (cfg : V1.Config) (fs : FS) (r c : Nat) (t : Img),
      0 < cfg.TILE_SIZE → V1.fsOk cfg fs = true →
      1 ≤ r → r ≤ cfg.GRID_ROWS → 1 ≤ c → c ≤ cfg.GRID_COLS →
      fs.find (V1.fname r c) = some (TileFile.decodable t) →
      t.size ≠ (cfg.TILE_SIZE, cfg.TILE_SIZE) →
      ∃ st0, V1.assembleLoop cfg fs = .ok st0 ∧
        Ev.paste ((c - 1) * cfg.TILE_SIZE) ((r - 1) * cfg.TILE_SIZE)
          (t.resize cfg.TILE_SIZE cfg.TILE_SIZE) ∈ st0.events ∧
        ∀ dx dy, dx < cfg.TILE_SIZE → dy < cfg.TILE_SIZE →
          st0.output_image.pix ((c - 1) * cfg.TILE_SIZE + dx)
              ((r - 1) * cfg.TILE_SIZE + dy) =
            (t.resize cfg.TILE_SIZE cfg.TILE_SIZE).pix dx dy) := by
  constructor
  · intro cfg fs c r t hT hok hc hr hm hf hsz
    obtain ⟨st, hrun, hw, hh, hev, hpix⟩ := Orig.assemble_ok cfg fs hok
    have hres : Orig.resolveTile cfg fs (Orig.cellId cfg c r) =
        t.resize cfg.TILE_SIZE cfg.TILE_SIZE := by
      simp [Orig.resolveTile, hm, hf, hsz]
    refine ⟨st, hrun, rfl, rfl, ?_, ?_⟩
    · rw [hev]
      apply List.mem_flatMap.mpr
      refine ⟨(c, r), (Orig.mem_cells cfg c r).mpr ⟨hc, hr⟩, ?_⟩
      simp [Orig.cellEvents, hm, hf, hres]
    · intro dx dy hdx hdy
      rw [hpix hT c r dx dy hc hr hdx hdy, hres]
  · intro cfg fs r c t hT hok hr1 hrR hc1 hcC hf hsz
    obtain ⟨st0, hloop, hw, hh, hev, hpix⟩ := V1.assembleLoop_ok cfg fs hok
    have hres : V1.resolveTile cfg fs r c =
        t.resize cfg.TILE_SIZE cfg.TILE_SIZE := by
      simp [V1.resolveTile, hf, hsz]
    have hpa : V1.pastes fs (r, c) = true := by
      simp [V1.pastes, hf]
    refine ⟨st0, hloop, ?_, ?_⟩
    · rw [hev]
      apply List.mem_flatMap.mpr
      refine ⟨(r, c), (V1.v1_mem_cells cfg r c).mpr ⟨hr1, hrR, hc1, hcC⟩, ?_⟩
      simp [V1.cellEvents, hf, hres]
    · intro dx dy hdx hdy
      rw [hpix hT r c dx dy hr1 hrR hc1 hcC hdx hdy]
      simp [hpa, hres]

/-- C7 witness: both concrete configurations with a single 2x3 tile file
(identifier 75879 resp. cell (1,1)) that gets resampled to 1024x1024. -/
theorem C7_witness :
    (∃ st, Orig.assemble_map Orig.config
        [(FName.jpg 75879, TileFile.decodable ⟨2, 3, fun _ _ => 7⟩)] =
        .ok st ∧
      (Img.resize ⟨2, 3, fun _ _ => 7⟩ Orig.config.TILE_SIZE
        Orig.config.TILE_SIZE).width = Orig.config.TILE_SIZE ∧
      (Img.resize ⟨2, 3, fun _ _ => 7⟩ Orig.config.TILE_SIZE
        Orig.config.TILE_SIZE).height = Orig.config.TILE_SIZE ∧
      Ev.paste (0 * Orig.config.TILE_SIZE) (0 * Orig.config.TILE_SIZE)
        (Img.resize ⟨2, 3, fun _ _ => 7⟩ Orig.config.TILE_SIZE
          Orig.config.TILE_SIZE) ∈ st.events ∧
      ∀ dx dy, dx < Orig.config.TILE_SIZE → dy < Orig.config.TILE_SIZE →
        st.output_image.pix (0 * Orig.config.TILE_SIZE + dx)
            (0 * Orig.config.TILE_SIZE + dy) =
          (Img.resize ⟨2, 3, fun _ _ => 7⟩ Orig.config.TILE_SIZE
            Orig.config.TILE_SIZE).pix dx dy) ∧
    (∃ st0, V1.assembleLoop V1.config
        [(FName.rc 1 1, TileFile.decodable ⟨2, 3, fun _ _ => 7⟩)] =
        .ok st0 ∧
      Ev.paste ((1 - 1) * V1.config.TILE_SIZE) ((1 - 1) * V1.config.TILE_SIZE)
        (Img.resize ⟨2, 3, fun _ _ => 7⟩ V1.config.TILE_SIZE
          V1.config.TILE_SIZE) ∈ st0.events ∧
      ∀ dx dy, dx < V1.config.TILE_SIZE → dy < V1.config.TILE_SIZE →
        st0.output_image.pix ((1 - 1) * V1.config.TILE_SIZE + dx)
            ((1 - 1) * V1.config.TILE_SIZE + dy) =
          (Img.resize ⟨2, 3, fun _ _ => 7⟩ V1.config.TILE_SIZE
            V1.config.TILE_SIZE).pix dx dy) :=
  ⟨C7_theorem.1 Orig.config
      [(FName.jpg 75879, TileFile.decodable ⟨2, 3, fun _ _ => 7⟩)]
      0 0 ⟨2, 3, fun _ _ => 7⟩ (by decide) (by decide) (by decide)
      (by decide) (by decide) rfl (by decide),
    C7_theorem.2 V1.config
      [(FName.rc 1 1, TileFile.decodable ⟨2, 3, fun _ _ => 7⟩)]
      1 1 ⟨2, 3, fun _ _ => 7⟩ (by decide) (by decide) (by decide)
      (by decide) (by decide) (by decide) rfl (by decide)⟩

/-- C8: a missing tile source directory aborts the process before any tile
processing with exit code 1 and no output written; whereas with the
directory present, missing individual tiles never cause a non-zero exit —
the run exits 0 and writes its output (in both variants). -/
theorem C8_theorem :
    (∀ (cfg : Orig.Config) (fs : FS),
      (Orig.mainRun cfg false fs).exitCode = 1 ∧
      Orig.savedOutput (Orig.mainRun cfg false fs) = none) ∧
    (∀ (cfg : Orig.Config) (fs : FS), Orig.fsOk cfg fs = true →
      (Orig.mainRun cfg true fs).exitCode = 0 ∧
      ∃ img, Orig.savedOutput (Orig.mainRun cfg true fs) = some img) ∧
    (∀ (cfg : V1.Config) (fs : FS),
      (V1.mainRun cfg false fs).exitCode = 1 ∧
      V1.savedOutput (V1.mainRun cfg false fs) = none) ∧
    (∀ (cfg : V1.Config) (fs : FS), V1.fsOk cfg fs = true →
      (V1.mainRun cfg true fs).exitCode = 0 ∧
      ∃ img, V1.savedOutput (V1.mainRun cfg true fs) = some img) := by
  refine ⟨?_, ?_, ?_, ?_⟩
  · intro cfg fs
    constructor <;>
      simp [Orig.mainRun, RunResult.exitCode, Orig.savedOutput]
  · intro cfg fs h
    obtain ⟨st, hrun, _⟩ := Orig.assemble_ok cfg fs h
    have hmr : Orig.mainRun cfg true fs = .success st := by
      simp [Orig.mainRun, hrun]
    rw [hmr]
    exact ⟨rfl, st.output_image, rfl⟩
  · intro cfg fs
    constructor <;>
      simp [V1.mainRun, RunResult.exitCode, V1.savedOutput]
  · intro cfg fs h
    obtain ⟨st0, hloop, _⟩ := V1.assembleLoop_ok cfg fs h
    have hmr : V1.mainRun cfg true fs = .success
        { st0 with output_image :=
            st0.output_image.resize cfg.GAME_SIZE cfg.GAME_SIZE } := by
      simp [V1.mainRun, V1.assemble_map_eq cfg fs st0 hloop]
    rw [hmr]
    exact ⟨rfl, _, rfl⟩

/-- C8 witness: both concrete configurations with an empty directory:
exit 1 and no output when the directory is absent, exit 0 with an output
image when it is present (all tiles missing). -/
theorem C8_witness :
    ((Orig.mainRun Orig.config false []).exitCode = 1 ∧
      Orig.savedOutput (Orig.mainRun Orig.config false []) = none) ∧
    ((Orig.mainRun Orig.config true []).exitCode = 0 ∧
      ∃ img, Orig.savedOutput (Orig.mainRun Orig.config true []) =
        some img) ∧
    ((V1.mainRun V1.config false []).exitCode = 1 ∧
      V1.savedOutput (V1.mainRun V1.config false []) = none) ∧
    ((V1.mainRun V1.config true []).exitCode = 0 ∧
      ∃ img, V1.savedOutput (V1.mainRun V1.config true []) = some img) :=
  ⟨C8_theorem.1 Orig.config [],
    C8_theorem.2.1 Orig.config [] (by decide),
    C8_theorem.2.2.1 V1.config [],
    C8_theorem.2.2.2 V1.config [] (by decide)⟩

/-- C9: the assembly function is deterministic — it is a pure function of
the tile directory's contents: two directory states that hold the same
files with the same contents (whatever their internal list order) yield
the same run outcome, hence pixel-identical composite images. -/
theorem C9_theorem :
    (∀ (cfg : Orig.Config) (fs1 fs2 : FS),
      (∀ m : FName, fs1.find m = fs2.find m) →
      Orig.assemble_map cfg fs1 = Orig.assemble_map cfg fs2) ∧
    (∀ (cfg : V1.Config) (fs1 fs2 : FS),
      (∀ m : FName, fs1.find m = fs2.find m) →
      V1.assemble_map cfg fs1 = V1.assemble_map cfg fs2) := by
  constructor
  · intro cfg fs1 fs2 h
    exact Orig.assemble_congr cfg fs1 fs2 fun n _ => h (Orig.fname n)
  · intro cfg fs1 fs2 h
    exact V1.v1_assemble_congr cfg fs1 fs2 fun p _ => h (V1.fname p.1 p.2)

/-- C9 witness: two directory states with the same lookup function (a
duplicate entry is shadowed) give identical runs of both variants. -/
theorem C9_witness :
    Orig.assemble_map Orig.config [(FName.jpg 1, TileFile.corrupt)] =
      Orig.assemble_map Orig.config
        [(FName.jpg 1, TileFile.corrupt),
         (FName.jpg 1, TileFile.corrupt)] ∧
    V1.assemble_map V1.config [] = V1.assemble_map V1.config [] :=
  ⟨C9_theorem.1 Orig.config [(FName.jpg 1, TileFile.corrupt)]
      [(FName.jpg 1, TileFile.corrupt), (FName.jpg 1, TileFile.corrupt)]
      (fun m => by
        by_cases h : FName.jpg 1 = m <;> simp [FS.find, h]),
    C9_theorem.2 V1.config [] [] fun m => rfl⟩

/-- C10: the output depends only on the entries of the expected grid
filenames: two directories that agree on those filenames produce the same
run outcome and the same persisted image, whatever other files they
contain; the initial directory listing feeds only diagnostic text. -/
theorem C10_theorem :
    (∀ (cfg : Orig.Config) (fs1 fs2 : FS),
      (∀ n ∈ Orig.expectedIds cfg,
        fs1.find (Orig.fname n) = fs2.find (Orig.fname n)) →
      Orig.assemble_map cfg fs1 = Orig.assemble_map cfg fs2 ∧
      ∀ d : Bool, Orig.savedOutput (Orig.mainRun cfg d fs1) =
        Orig.savedOutput (Orig.mainRun cfg d fs2)) ∧
    (∀ (cfg : V1.Config) (fs1 fs2 : FS),
      (∀ p ∈ V1.cells cfg,
        fs1.find (V1.fname p.1 p.2) = fs2.find (V1.fname p.1 p.2)) →
      V1.assemble_map cfg fs1 = V1.assemble_map cfg fs2 ∧
      ∀ d : Bool, V1.savedOutput (V1.mainRun cfg d fs1) =
        V1.savedOutput (V1.mainRun cfg d fs2)) := by
  constructor
  · intro cfg fs1 fs2 h
    have ha := Orig.assemble_congr cfg fs1 fs2 h
    refine ⟨ha, ?_⟩
    intro d
    cases d <;> simp [Orig.mainRun, ha]
  · intro cfg fs1 fs2 h
    have ha := V1.v1_assemble_congr cfg fs1 fs2 h
    refine ⟨ha, ?_⟩
    intro d
    cases d <;> simp [V1.mainRun, ha]

/-- C10 witness: an empty directory versus one holding only a stray file
that no expected filename matches — identical outcomes in both variants. -/
theorem C10_witness :
    (Orig.assemble_map Orig.config [] =
      Orig.assemble_map Orig.config [(FName.rc 1 1, TileFile.corrupt)] ∧
      ∀ d : Bool, Orig.savedOutput (Orig.mainRun Orig.config d []) =
        Orig.savedOutput (Orig.mainRun Orig.config d
          [(FName.rc 1 1, TileFile.corrupt)])) ∧
    (V1.assemble_map V1.config [] =
      V1.assemble_map V1.config [(FName.jpg 0, TileFile.corrupt)] ∧
      ∀ d : Bool, V1.savedOutput (V1.mainRun V1.config d []) =
        V1.savedOutput (V1.mainRun V1.config d
          [(FName.jpg 0, TileFile.corrupt)])) :=
  ⟨C10_theorem.1 Orig.config [] [(FName.rc 1 1, TileFile.corrupt)]
      fun n _ => rfl,
    C10_theorem.2 V1.config [] [(FName.jpg 0, TileFile.corrupt)]
      fun p _ => rfl⟩
